import Mathlib

/-! # FractalImages: a shallow embedding of `FractalImages.cpp`

The development embeds the functions of `src/FractalImages/FractalImages.cpp`
(`reduceImage`, `copyImageToOffset`, `computeFractals`, and of `main` the tests on `argc`
and the construction of the offsets array) and proves properties of them.

Conventions of the embedding.

* A `cv::Mat` is a value: its width `cols`, its height `rows` and a pixel function
  `px column row`.  Only the pixels with `0 ≤ column < cols` and `0 ≤ row < rows` belong
  to the image.  A function that writes through a view of its argument (the C++ code
  shares the pixel storage between the caller's `Mat` and the callee's copy of the header)
  returns the updated image instead.
* C++ `int` is `Int`; `/` on `int` is `Int.tdiv` (truncation toward zero).  The sums and
  differences formed by the code stay within the range of `int` as long as the sum of the
  widths (heights) of the two images does; wrap-around is not modelled.
* The program can stop abnormally: a failed `CV_Assert` of the image library
  (`cv::Exception`), a division by zero, or a read past the end of the ten-slot offsets
  array.  These are the values of `Fault`, and the functions return `Except Fault _`.
* The image library is not part of the repository.  Its pixel arithmetic (Gaussian
  smoothing, interpolation) is a parameter, `Imgproc`.  The sizes of its results and its
  assertions are modelled explicitly: the bounds of a selected rectangle and the release
  of a view without pixels (`Mat.roi`), the copy into a view, which fails for a source
  without pixels (`Mat.copyToRoi`), and the sizes passed to `resize`.
* `imshow` (display) has no effect on the images and is left out.
-/

namespace FractalImages

/-! ## Data model -/

/-- Abnormal ends of the program. -/
inductive Fault where
  /-- A `CV_Assert` of `resize` on the sizes it is given failed (a `cv::Exception` is
  thrown). -/
  | cvAssert
  /-- The `CV_Assert` of a rectangle selection `m(Rect(..))` failed: the rectangle does not
  lie inside `m` (a `cv::Exception` is thrown). -/
  | roiBounds
  /-- The call of `copyTo` on a source without pixels, with a view as destination: `copyTo`
  releases the destination, and the release of a destination of fixed size fails its
  `CV_Assert(!fixedSize())` (a `cv::Exception` is thrown). -/
  | emptyCopy
  /-- Integer division by zero. -/
  | divByZero
  /-- A read of `offsetPoints[i]` with `i` outside `0..9`. -/
  | outOfBounds
deriving DecidableEq, Repr

/-- The type `cv::Point`: integer coordinates, `x` a column and `y` a row. -/
structure Point where
  x : Int
  y : Int
deriving DecidableEq, Repr

/-- The type `cv::Mat` as a value: `cols` columns, `rows` rows, and the pixel `px x y`
in column `x` of row `y`. -/
structure Mat (α : Type) where
  cols : Nat
  rows : Nat
  px : Int → Int → α

/-- The arrays `Point offsetPoints[10]` and `Point childOffsets[10]`: ten slots. -/
structure Offsets where
  slots : List Point
  size_eq : slots.length = 10

/-- The pixel arithmetic of the image library, which the embedding does not fix:
`blurPx src x y` is the pixel `(x, y)` of the 3 x 3 Gaussian smoothing of `src`, and
`resizePx src w h x y` is the pixel `(x, y)` of `src` resampled to `w` x `h`. -/
structure Imgproc (α : Type) where
  blurPx : Mat α → Int → Int → α
  resizePx : Mat α → Nat → Nat → Int → Int → α

variable {α : Type}

/-- The rows of an image as lists of pixels (to compare images by evaluation). -/
def Mat.toLists (m : Mat α) : List (List α) :=
  (List.range m.rows).map fun j => (List.range m.cols).map fun i => m.px i j

/-! ## The library operations used by the program -/

/-- The assertion of the library on a rectangle `Rect(x, y, width, height)` selected from
`m`: `0 <= x`, `0 <= width`, `x + width <= m.cols`, `0 <= y`, `0 <= height` and
`y + height <= m.rows`. -/
def Mat.holdsRect (m : Mat α) (x y width height : Int) : Prop :=
  0 ≤ x ∧ 0 ≤ width ∧ x + width ≤ m.cols ∧ 0 ≤ y ∧ 0 ≤ height ∧ y + height ≤ m.rows

instance (m : Mat α) (x y width height : Int) : Decidable (m.holdsRect x y width height) := by
  unfold Mat.holdsRect
  infer_instance

/-- The library operation `m(Rect(x, y, width, height))`, the view of a sub-rectangle.  The
library asserts that the rectangle lies inside `m` (`Mat.holdsRect`); a failed assertion
is the bounds error of the selection.  Pixel `(i, j)` of the view is pixel `(x + i, y + j)`
of `m`.  A view with `width = 0` or `height = 0` is released: it has 0 columns and 0
rows. -/
def Mat.roi (m : Mat α) (x y width height : Int) : Except Fault (Mat α) :=
  if m.holdsRect x y width height then
    if width = 0 ∨ height = 0 then
      .ok { cols := 0, rows := 0, px := fun i j => m.px (x + i) (y + j) }
    else
      .ok { cols := width.toNat, rows := height.toNat, px := fun i j => m.px (x + i) (y + j) }
  else
    .error .roiBounds

/-- The library operation `src.copyTo(img(Rect(x, y, src.cols, src.rows)))`.  First the
view of `img` at `(x, y)` of the size of `src` is selected, with the assertion of
`Mat.roi`.  Then `src` is copied: for a source without pixels `copyTo` releases its
destination, which fails for the view (a destination of fixed size); otherwise the pixels
of `img` inside the view become those of `src` and all others stay. -/
def Mat.copyToRoi (src img : Mat α) (x y : Int) : Except Fault (Mat α) :=
  if img.holdsRect x y src.cols src.rows then
    if src.cols = 0 ∨ src.rows = 0 then
      .error .emptyCopy
    else
      .ok { img with
            px := fun i j =>
              if x ≤ i ∧ i < x + src.cols ∧ y ≤ j ∧ j < y + src.rows then src.px (i - x) (j - y)
              else img.px i j }
  else
    .error .roiBounds

/-- The library operation `GaussianBlur(src, dst, Size(3, 3), 0, 0)`: an image of the size
of `src`, with the smoothed pixels. -/
def GaussianBlur (cv : Imgproc α) (src : Mat α) : Mat α :=
  { cols := src.cols, rows := src.rows, px := cv.blurPx src }

/-- The library operation `resize(src, dst, Size(width, height))`: `src` resampled to
`width` x `height`.  The library asserts that the source has pixels and, as the call
passes no scale factors, that the requested size has pixels (`width > 0` and
`height > 0`). -/
def resize (cv : Imgproc α) (src : Mat α) (width height : Int) : Except Fault (Mat α) :=
  if src.cols = 0 ∨ src.rows = 0 then
    .error .cvAssert
  else if width ≤ 0 ∨ height ≤ 0 then
    .error .cvAssert
  else
    .ok { cols := width.toNat, rows := height.toNat,
          px := cv.resizePx src width.toNat height.toNat }

/-! ## `reduceImage` (lines 175-182) -/

/-- The function `reduceImage`: smooth, then resize to
`(cols / reductionDenominator, rows / reductionDenominator)`. -/
def reduceImage (cv : Imgproc α) (originalImg : Mat α) (reductionDenominator : Int) :
    Except Fault (Mat α) :=
  let smoothedImg := GaussianBlur cv originalImg
  if reductionDenominator = 0 then
    .error .divByZero
  else
    resize cv smoothedImg (Int.tdiv smoothedImg.cols reductionDenominator)
      (Int.tdiv smoothedImg.rows reductionDenominator)

/-! ## `copyImageToOffset` (lines 136-169)

The function changes its local copies of `point` and `reducedImg` in four steps and
returns early from the first two.  Each step is a function of the pair; `none` is the
early `return`. -/

/-- Lines 141-149: the source lies partly or wholly left of the image. -/
def cropLeft (point : Point) (reducedImg : Mat α) : Except Fault (Option (Point × Mat α)) :=
  if point.x < 0 then
    if point.x + reducedImg.cols > 0 then
      match reducedImg.roi (-point.x) 0 (reducedImg.cols + point.x) reducedImg.rows with
      | .error e => .error e
      | .ok cropped => .ok (some ({ point with x := 0 }, cropped))
    else
      .ok none
  else
    .ok (some (point, reducedImg))

/-- Lines 150-158: the source lies partly or wholly above the image. -/
def cropTop (point : Point) (reducedImg : Mat α) : Except Fault (Option (Point × Mat α)) :=
  if point.y < 0 then
    if point.y + reducedImg.rows > 0 then
      match reducedImg.roi 0 (-point.y) reducedImg.cols (reducedImg.rows + point.y) with
      | .error e => .error e
      | .ok cropped => .ok (some ({ point with y := 0 }, cropped))
    else
      .ok none
  else
    .ok (some (point, reducedImg))

/-- Lines 159-161: the source reaches beyond the right edge of the image. -/
def cropRight (img : Mat α) (point : Point) (reducedImg : Mat α) : Except Fault (Mat α) :=
  if point.x + reducedImg.cols > img.cols then
    reducedImg.roi 0 0 (img.cols - point.x) reducedImg.rows
  else
    .ok reducedImg

/-- Lines 162-164: the source reaches beyond the bottom edge of the image. -/
def cropBottom (img : Mat α) (point : Point) (reducedImg : Mat α) : Except Fault (Mat α) :=
  if point.y + reducedImg.rows > img.rows then
    reducedImg.roi 0 0 reducedImg.cols (img.rows - point.y)
  else
    .ok reducedImg

/-- The function `copyImageToOffset`.  The result is the image `img` after the call. -/
def copyImageToOffset (point : Point) (img reducedImg : Mat α) : Except Fault (Mat α) :=
  if point.x > img.cols ∨ point.y > img.rows then
    .ok img
  else
    match cropLeft point reducedImg with
    | .error e => .error e
    | .ok none => .ok img
    | .ok (some (point, reducedImg)) =>
      match cropTop point reducedImg with
      | .error e => .error e
      | .ok none => .ok img
      | .ok (some (point, reducedImg)) =>
        match cropRight img point reducedImg with
        | .error e => .error e
        | .ok reducedImg =>
          match cropBottom img point reducedImg with
          | .error e => .error e
          | .ok reducedImg => reducedImg.copyToRoi img point.x point.y

/-! ## `computeFractals` (lines 96-128) -/

/-- Lines 103-109: one slot of `childOffsets`. -/
def childOffset (reductionDenominator : Int) (initialOffset : Point) : Point :=
  if initialOffset.x = -1 ∧ initialOffset.y = -1 then
    ⟨-1, -1⟩
  else
    ⟨Int.tdiv initialOffset.x reductionDenominator, Int.tdiv initialOffset.y reductionDenominator⟩

/-- Lines 101-111: the array `childOffsets`, filled slot by slot for `i = 0 .. 9`. -/
def childOffsets (offsetPoints : Offsets) (reductionDenominator : Int) : Offsets :=
  ⟨offsetPoints.slots.map (childOffset reductionDenominator),
    by rw [List.length_map]; exact offsetPoints.size_eq⟩

/-- Lines 121-126: the `while` loop, entered with `point = offsetPoints[i]`; `rest` are the
slots `offsetPoints[i + 1 ..]` that have not been read.  After a paste the loop reads the
next slot; when there is none (`i + 1 = 10`) the read is out of bounds. -/
def pasteLoop (fractalImg : Mat α) : List Point → Point → Mat α → Except Fault (Mat α)
  | [], point, returnValue =>
    if point.x ≠ -1 ∧ point.y ≠ -1 then
      match copyImageToOffset point returnValue fractalImg with
      | .error e => .error e
      | .ok _ => .error .outOfBounds
    else
      .ok returnValue
  | next :: rest, point, returnValue =>
    if point.x ≠ -1 ∧ point.y ≠ -1 then
      match copyImageToOffset point returnValue fractalImg with
      | .error e => .error e
      | .ok returnValue => pasteLoop fractalImg rest next returnValue
    else
      .ok returnValue

/-- Lines 119-127: `point = offsetPoints[0]`, then the loop. -/
def pasteAll (fractalImg : Mat α) (offsetPoints : Offsets) (returnValue : Mat α) :
    Except Fault (Mat α) :=
  match offsetPoints.slots with
  | [] => .error .outOfBounds
  | point :: rest => pasteLoop fractalImg rest point returnValue

/-- The function `computeFractals`.  The iteration count is a natural number (the code
only tests `iteration > 0`).  `returnValue` starts as a copy of `image`
(`image.copyTo(returnValue)`), which the pastes then change. -/
def computeFractals (cv : Imgproc α) :
    Mat α → Nat → Offsets → Int → Except Fault (Mat α)
  | image, iteration, offsetPoints, reductionDenominator =>
    match reduceImage cv image reductionDenominator with
    | .error e => .error e
    | .ok reducedImg =>
      let returnValue := image
      let childOffsets := childOffsets offsetPoints reductionDenominator
      let fractal : Except Fault (Mat α) :=
        match iteration with
        | iteration + 1 => computeFractals cv reducedImg iteration childOffsets reductionDenominator
        | 0 => .ok reducedImg
      match fractal with
      | .error e => .error e
      | .ok fractalImg => pasteAll fractalImg offsetPoints returnValue

/-- Lines 99 and 112-117: the image `fractalImg` that `computeFractals` pastes, the
fractal fill of the level. -/
def fractalFill (cv : Imgproc α) (image : Mat α) (iteration : Nat) (offsetPoints : Offsets)
    (reductionDenominator : Int) : Except Fault (Mat α) :=
  match reduceImage cv image reductionDenominator with
  | .error e => .error e
  | .ok reducedImg =>
    match iteration with
    | iteration + 1 =>
      computeFractals cv reducedImg iteration
        (childOffsets offsetPoints reductionDenominator) reductionDenominator
    | 0 => .ok reducedImg

/-! ## `computeFractals` with a record of the calls it makes -/

/-- The calls that the instrumented functions record. -/
inductive Call where
  | reduceImage
  | copyImageToOffset
deriving DecidableEq, Repr

/-- The loop `pasteLoop`, with the list of the calls made, in the order they are made. -/
def pasteLoopT (fractalImg : Mat α) :
    List Point → Point → Mat α → List Call × Except Fault (Mat α)
  | [], point, returnValue =>
    if point.x ≠ -1 ∧ point.y ≠ -1 then
      match copyImageToOffset point returnValue fractalImg with
      | .error e => ([Call.copyImageToOffset], .error e)
      | .ok _ => ([Call.copyImageToOffset], .error .outOfBounds)
    else
      ([], .ok returnValue)
  | next :: rest, point, returnValue =>
    if point.x ≠ -1 ∧ point.y ≠ -1 then
      match copyImageToOffset point returnValue fractalImg with
      | .error e => ([Call.copyImageToOffset], .error e)
      | .ok returnValue =>
        let later := pasteLoopT fractalImg rest next returnValue
        (Call.copyImageToOffset :: later.1, later.2)
    else
      ([], .ok returnValue)

/-- The step `pasteAll`, with the list of the calls made. -/
def pasteAllT (fractalImg : Mat α) (offsetPoints : Offsets) (returnValue : Mat α) :
    List Call × Except Fault (Mat α) :=
  match offsetPoints.slots with
  | [] => ([], .error .outOfBounds)
  | point :: rest => pasteLoopT fractalImg rest point returnValue

/-- The function `computeFractals`, with the list of the calls to `reduceImage` and
`copyImageToOffset` made, in the order they are made.  A call is recorded when it is
made, whether it returns or not. -/
def computeFractalsT (cv : Imgproc α) :
    Mat α → Nat → Offsets → Int → List Call × Except Fault (Mat α)
  | image, iteration, offsetPoints, reductionDenominator =>
    match reduceImage cv image reductionDenominator with
    | .error e => ([Call.reduceImage], .error e)
    | .ok reducedImg =>
      let returnValue := image
      let childOffsets := childOffsets offsetPoints reductionDenominator
      let fractal : List Call × Except Fault (Mat α) :=
        match iteration with
        | iteration + 1 => computeFractalsT cv reducedImg iteration childOffsets reductionDenominator
        | 0 => ([], .ok reducedImg)
      match fractal.2 with
      | .error e => (Call.reduceImage :: fractal.1, .error e)
      | .ok fractalImg =>
        let pastes := pasteAllT fractalImg offsetPoints returnValue
        (Call.reduceImage :: (fractal.1 ++ pastes.1), pastes.2)

/-! ## `main` (lines 27-93)

Of `main` the embedding keeps what decides the call of `computeFractals` on line 85: the
tests on `argc` and the construction of `offsetPoints`.  The command line is `argc` and
the function `arg`, where `arg k` is `atoi(argv[k])`; the image read by `imread` is a
parameter. -/

/-- The constant `MINIMUM_NUMBER_OF_ARGS` (line 29). -/
def MINIMUM_NUMBER_OF_ARGS : Int := 2

/-- The constant `MAXIMUM_NUMBER_OF_ARGS` (line 30). -/
def MAXIMUM_NUMBER_OF_ARGS : Int := 24

/-- The arguments of the call `computeFractals(img, iterations, offsetPoints,
reductionDenominator)` on line 85.  A slot of `offsetPoints` is `none` as long as `main`
has not assigned it. -/
structure CoreCall where
  iterations : Int
  offsetPoints : List (Option Point)
  reductionDenominator : Int
deriving DecidableEq, Repr

/-- The assignment `offsetPoints[i] = p`; an index outside the array is out of bounds. -/
def assignSlot (offsetPoints : List (Option Point)) (i : Int) (p : Point) :
    Except Fault (List (Option Point)) :=
  if 0 ≤ i ∧ i < offsetPoints.length then
    .ok (offsetPoints.set i.toNat (some p))
  else
    .error .outOfBounds

/-- The next `count` turns of a loop `for (...; i < bound; i++) offsetPoints[i] = value i;`
that has reached the index `i`. -/
def assignSlotsFrom (value : Int → Point) :
    Nat → Int → List (Option Point) → Except Fault (List (Option Point))
  | 0, _, offsetPoints => .ok offsetPoints
  | count + 1, i, offsetPoints =>
    match assignSlot offsetPoints i (value i) with
    | .error e => .error e
    | .ok offsetPoints => assignSlotsFrom value count (i + 1) offsetPoints

/-- The loop `for (int i = first; i < bound; i++) offsetPoints[i] = value i;`: it makes
`bound - first` turns, none when `bound ≤ first`. -/
def assignSlots (value : Int → Point) (first bound : Int) (offsetPoints : List (Option Point)) :
    Except Fault (List (Option Point)) :=
  assignSlotsFrom value (bound - first).toNat first offsetPoints

/-- Lines 50-70: the declaration of `offsetPoints` and the values read from the command
line, or the centre of the image when only the image path is given.  The result is
`(reductionDenominator, iterations, offsetPoints)`. -/
def readArguments (argc : Int) (arg : Int → Int) (img : Mat α) :
    Except Fault (Int × Int × List (Option Point)) :=
  let offsetPoints : List (Option Point) := List.replicate 10 none
  if argc > MINIMUM_NUMBER_OF_ARGS then
    match assignSlots (fun i => ⟨arg (2 + 2 * (1 + i)), arg (2 + 2 * (1 + i) + 1)⟩)
        0 (Int.tdiv (argc - MINIMUM_NUMBER_OF_ARGS - 2) 2) offsetPoints with
    | .error e => .error e
    | .ok offsetPoints => .ok (arg 2, arg 3, offsetPoints)
  else
    match assignSlot offsetPoints 0 ⟨Int.tdiv img.cols 2, Int.tdiv img.rows 2⟩ with
    | .error e => .error e
    | .ok offsetPoints => .ok (2, 2, offsetPoints)

/-- Lines 71-82: the rest of the array is filled with `Point(-1, -1)`. -/
def padOffsets (argc : Int) (offsetPoints : List (Option Point)) :
    Except Fault (List (Option Point)) :=
  if argc < MAXIMUM_NUMBER_OF_ARGS then
    let startIndex : Int :=
      if argc > MINIMUM_NUMBER_OF_ARGS then Int.tdiv (argc - MINIMUM_NUMBER_OF_ARGS - 2) 2
      else 1
    assignSlots (fun _ => ⟨-1, -1⟩) startIndex 10 offsetPoints
  else
    .ok offsetPoints

/-- The function `main` up to the call of `computeFractals`: `none` when `main` returns
`-1` from one of its tests on `argc` (lines 31-43), and otherwise the arguments of the
call on line 85. -/
def mainCall (argc : Int) (arg : Int → Int) (img : Mat α) : Except Fault (Option CoreCall) :=
  if argc < MINIMUM_NUMBER_OF_ARGS then
    .ok none
  else if argc > MAXIMUM_NUMBER_OF_ARGS then
    .ok none
  else if Int.tmod (argc - MINIMUM_NUMBER_OF_ARGS - 2) 2 ≠ 0 then
    .ok none
  else
    match readArguments argc arg img with
    | .error e => .error e
    | .ok (reductionDenominator, iterations, offsetPoints) =>
      match padOffsets argc offsetPoints with
      | .error e => .error e
      | .ok offsetPoints => .ok (some ⟨iterations, offsetPoints, reductionDenominator⟩)

/-! ## Concrete inputs -/

/-- The point `Point(-1, -1)` that marks an unused slot. -/
def sentinel : Point := ⟨-1, -1⟩

/-- The offsets array that holds the given points in its first slots and `Point(-1, -1)`
in the others (at most ten points are kept). -/
def Offsets.padded (points : List Point) : Offsets :=
  ⟨(points ++ List.replicate 10 sentinel).take 10, by
    rw [List.length_take, List.length_append, List.length_replicate]; omega⟩

/-- A pixel arithmetic to evaluate the functions with: no smoothing, and resampling by
taking the nearest pixel above and left. -/
def nearest : Imgproc Nat where
  blurPx := fun src => src.px
  resizePx := fun src w h i j => src.px (i * src.cols / w) (j * src.rows / h)

/-- The `w` x `h` image whose pixel in column `i` of row `j` is `10 * j + i`. -/
def ramp (w h : Nat) : Mat Nat :=
  { cols := w, rows := h, px := fun i j => (10 * j + i).toNat }

/-- The `w` x `h` image with all pixels equal to `c`. -/
def plain (w h c : Nat) : Mat Nat :=
  { cols := w, rows := h, px := fun _ _ => c }


/-! # Theorems -/

/-! ## The four clipping steps -/

/-- A rectangle selection returns exactly when the rectangle lies inside the matrix. -/
theorem roi_ok_iff (m : Mat α) (x y width height : Int) :
    (∃ v, m.roi x y width height = .ok v) ↔ m.holdsRect x y width height := by
  unfold Mat.roi
  by_cases h : m.holdsRect x y width height
  · rw [if_pos h]
    by_cases he : width = 0 ∨ height = 0
    · rw [if_pos he]
      exact ⟨fun _ => h, fun _ => ⟨_, rfl⟩⟩
    · rw [if_neg he]
      exact ⟨fun _ => h, fun _ => ⟨_, rfl⟩⟩
  · rw [if_neg h]
    exact ⟨fun ⟨v, hv⟩ => (by cases hv), fun hh => absurd hh h⟩

/-- The view of a rectangle that lies inside `m`: its size is `width x height`, or
`0 x 0` when one of the two is 0. -/
theorem roi_spec (m : Mat α) (x y width height : Int) (h : m.holdsRect x y width height) :
    ∃ v, m.roi x y width height = .ok v ∧
      (((v.cols : Int) = width ∧ (v.rows : Int) = height) ∨
        (v.cols = 0 ∧ v.rows = 0 ∧ (width = 0 ∨ height = 0))) ∧
      ∀ i j, v.px i j = m.px (x + i) (y + j) := by
  have hw : 0 ≤ width := h.2.1
  have hh : 0 ≤ height := h.2.2.2.2.1
  unfold Mat.roi
  rw [if_pos h]
  by_cases he : width = 0 ∨ height = 0
  · rw [if_pos he]
    exact ⟨_, rfl, Or.inr ⟨rfl, rfl, he⟩, fun _ _ => rfl⟩
  · rw [if_neg he]
    exact ⟨_, rfl, Or.inl ⟨Int.toNat_of_nonneg hw, Int.toNat_of_nonneg hh⟩, fun _ _ => rfl⟩

/-- Effect of lines 141-149: either the early return (the source ends left of column 0), or
the point moves to column `max point.x 0` and the source loses the columns left of it (a
source left without pixels is 0 x 0). -/
theorem cropLeft_spec (point : Point) (src : Mat α) :
    (point.x < 0 ∧ point.x + src.cols ≤ 0 ∧ cropLeft point src = .ok none) ∨
    ∃ p s, cropLeft point src = .ok (some (p, s)) ∧ p.y = point.y ∧ 0 ≤ p.x ∧
      (point.x < 0 → p.x = 0 ∧ 0 < point.x + src.cols) ∧ (0 ≤ point.x → p.x = point.x) ∧
      (((s.cols : Int) = src.cols - (p.x - point.x) ∧ s.rows = src.rows) ∨
        (s.cols = 0 ∧ s.rows = 0 ∧ src.rows = 0)) ∧
      ∀ i j, s.px i j = src.px (i + (p.x - point.x)) j := by
  unfold cropLeft
  by_cases h : point.x < 0
  · by_cases h2 : point.x + (src.cols : Int) > 0
    · right
      have hb : src.holdsRect (-point.x) 0 (src.cols + point.x) src.rows := by
        unfold Mat.holdsRect
        omega
      obtain ⟨v, hv, hsize, hpx⟩ := roi_spec src _ _ _ _ hb
      rw [if_pos h, if_pos h2, hv]
      refine ⟨_, _, rfl, rfl, le_refl _, fun _ => ⟨rfl, by omega⟩,
        fun h0 => absurd h (not_lt.mpr h0), ?_, ?_⟩
      · show ((v.cols : Int) = src.cols - (0 - point.x) ∧ v.rows = src.rows) ∨
          (v.cols = 0 ∧ v.rows = 0 ∧ src.rows = 0)
        omega
      · intro i j
        rw [hpx]
        show src.px (-point.x + i) (0 + j) = src.px (i + (0 - point.x)) j
        congr 1 <;> omega
    · left
      refine ⟨h, by omega, ?_⟩
      rw [if_pos h, if_neg h2]
  · right
    rw [if_neg h]
    refine ⟨_, _, rfl, rfl, not_lt.mp h, fun h0 => absurd h0 h, fun _ => rfl, ?_, ?_⟩
    · omega
    · intro i j
      congr 1; omega

/-- Effect of lines 150-158: the vertical counterpart of `cropLeft_spec`. -/
theorem cropTop_spec (point : Point) (src : Mat α) :
    (point.y < 0 ∧ point.y + src.rows ≤ 0 ∧ cropTop point src = .ok none) ∨
    ∃ p s, cropTop point src = .ok (some (p, s)) ∧ p.x = point.x ∧ 0 ≤ p.y ∧
      (point.y < 0 → p.y = 0 ∧ 0 < point.y + src.rows) ∧ (0 ≤ point.y → p.y = point.y) ∧
      (((s.rows : Int) = src.rows - (p.y - point.y) ∧ s.cols = src.cols) ∨
        (s.cols = 0 ∧ s.rows = 0 ∧ src.cols = 0)) ∧
      ∀ i j, s.px i j = src.px i (j + (p.y - point.y)) := by
  unfold cropTop
  by_cases h : point.y < 0
  · by_cases h2 : point.y + (src.rows : Int) > 0
    · right
      have hb : src.holdsRect 0 (-point.y) src.cols (src.rows + point.y) := by
        unfold Mat.holdsRect
        omega
      obtain ⟨v, hv, hsize, hpx⟩ := roi_spec src _ _ _ _ hb
      rw [if_pos h, if_pos h2, hv]
      refine ⟨_, _, rfl, rfl, le_refl _, fun _ => ⟨rfl, by omega⟩,
        fun h0 => absurd h (not_lt.mpr h0), ?_, ?_⟩
      · show ((v.rows : Int) = src.rows - (0 - point.y) ∧ v.cols = src.cols) ∨
          (v.cols = 0 ∧ v.rows = 0 ∧ src.cols = 0)
        omega
      · intro i j
        rw [hpx]
        show src.px (0 + i) (-point.y + j) = src.px i (j + (0 - point.y))
        congr 1 <;> omega
    · left
      refine ⟨h, by omega, ?_⟩
      rw [if_pos h, if_neg h2]
  · right
    rw [if_neg h]
    refine ⟨_, _, rfl, rfl, not_lt.mp h, fun h0 => absurd h0 h, fun _ => rfl, ?_, ?_⟩
    · omega
    · intro i j
      congr 1; omega

/-- Effect of lines 159-161 for a point inside the width of the image: the source keeps
its first `min cols (img.cols - point.x)` columns (a source left without pixels is
0 x 0). -/
theorem cropRight_spec (img : Mat α) (point : Point) (src : Mat α)
    (h1 : point.x ≤ img.cols) :
    ∃ s, cropRight img point src = .ok s ∧ point.x + (s.cols : Int) ≤ img.cols ∧
      (((s.cols : Int) = min (src.cols : Int) (img.cols - point.x) ∧ s.rows = src.rows) ∨
        (s.cols = 0 ∧ s.rows = 0 ∧
          (min (src.cols : Int) (img.cols - point.x) = 0 ∨ src.rows = 0))) ∧
      ∀ i j, s.px i j = src.px i j := by
  unfold cropRight
  by_cases h : point.x + (src.cols : Int) > img.cols
  · have hb : src.holdsRect 0 0 (img.cols - point.x) src.rows := by
      unfold Mat.holdsRect
      omega
    obtain ⟨v, hv, hsize, hpx⟩ := roi_spec src _ _ _ _ hb
    rw [if_pos h, hv]
    refine ⟨_, rfl, by omega, by omega, ?_⟩
    intro i j
    rw [hpx]
    congr 1 <;> omega
  · rw [if_neg h]
    exact ⟨_, rfl, by omega, by omega, fun _ _ => rfl⟩

/-- Effect of lines 162-164 for a point inside the height of the image: the source keeps
its first `min rows (img.rows - point.y)` rows (a source left without pixels is 0 x 0). -/
theorem cropBottom_spec (img : Mat α) (point : Point) (src : Mat α)
    (h1 : point.y ≤ img.rows) :
    ∃ s, cropBottom img point src = .ok s ∧ point.y + (s.rows : Int) ≤ img.rows ∧
      (((s.rows : Int) = min (src.rows : Int) (img.rows - point.y) ∧ s.cols = src.cols) ∨
        (s.cols = 0 ∧ s.rows = 0 ∧
          (min (src.rows : Int) (img.rows - point.y) = 0 ∨ src.cols = 0))) ∧
      ∀ i j, s.px i j = src.px i j := by
  unfold cropBottom
  by_cases h : point.y + (src.rows : Int) > img.rows
  · have hb : src.holdsRect 0 0 src.cols (img.rows - point.y) := by
      unfold Mat.holdsRect
      omega
    obtain ⟨v, hv, hsize, hpx⟩ := roi_spec src _ _ _ _ hb
    rw [if_pos h, hv]
    refine ⟨_, rfl, by omega, by omega, ?_⟩
    intro i j
    rw [hpx]
    congr 1 <;> omega
  · rw [if_neg h]
    exact ⟨_, rfl, by omega, by omega, fun _ _ => rfl⟩

/-! ## `copyImageToOffset` -/

/-- The run of `copyImageToOffset` past the range test of line 137.  It is one of: the
early return of the left crop; the early return of the top crop; or the four crops
followed by the copy of line 166.  In the last case the destination rectangle lies inside
the target, the point has moved to `(max 0 point.x, max 0 point.y)`, and the cropped
source is the part of the source that falls inside the target (0 x 0 when that part has
no pixels and a crop was made). -/
theorem copyImageToOffset_run (point : Point) (img src : Mat α)
    (hskip : ¬ (point.x > img.cols ∨ point.y > img.rows)) :
    (cropLeft point src = .ok none ∧ copyImageToOffset point img src = .ok img ∧
      point.x < 0 ∧ point.x + src.cols ≤ 0) ∨
    ∃ p1 s1, cropLeft point src = .ok (some (p1, s1)) ∧
      ((cropTop p1 s1 = .ok none ∧ copyImageToOffset point img src = .ok img ∧
          point.y < 0 ∧ point.y + src.rows ≤ 0) ∨
       ∃ p2 s2 s3 s4, cropTop p1 s1 = .ok (some (p2, s2)) ∧
         cropRight img p2 s2 = .ok s3 ∧ cropBottom img p2 s3 = .ok s4 ∧
         copyImageToOffset point img src = s4.copyToRoi img p2.x p2.y ∧
         img.holdsRect p2.x p2.y s4.cols s4.rows ∧
         p2.x = max 0 point.x ∧ p2.y = max 0 point.y ∧
         (((s4.cols : Int) = min (img.cols : Int) (point.x + src.cols) - p2.x ∧
            (s4.rows : Int) = min (img.rows : Int) (point.y + src.rows) - p2.y) ∨
          (s4.cols = 0 ∧ s4.rows = 0 ∧
            (min (img.cols : Int) (point.x + src.cols) ≤ p2.x ∨
              min (img.rows : Int) (point.y + src.rows) ≤ p2.y))) ∧
         ∀ i j, s4.px i j = src.px (i + (p2.x - point.x)) (j + (p2.y - point.y))) := by
  unfold copyImageToOffset
  rw [if_neg hskip]
  rcases cropLeft_spec point src with
    ⟨hx, hx2, hl⟩ | ⟨p1, s1, hl, hy1, hx1, hxn, hxp, hsz1, hp1⟩
  · left
    rw [hl]
    exact ⟨rfl, rfl, hx, hx2⟩
  right
  refine ⟨p1, s1, hl, ?_⟩
  rw [hl]
  simp only
  have hp1x : p1.x = max 0 point.x := by omega
  have hrows1 : s1.rows = src.rows := by omega
  rcases cropTop_spec p1 s1 with
    ⟨hy, hy2, ht⟩ | ⟨p2, s2, ht, hx2, hy2, hyn, hyp, hsz2, hp2⟩
  · left
    rw [ht]
    exact ⟨rfl, rfl, by omega, by omega⟩
  right
  rw [ht]
  simp only
  have hp2x : p2.x = max 0 point.x := by omega
  have hp2y : p2.y = max 0 point.y := by omega
  have hsum2 : ((s2.cols : Int) = src.cols - (p2.x - point.x) ∧
        (s2.rows : Int) = src.rows - (p2.y - point.y)) ∨
      (s2.cols = 0 ∧ s2.rows = 0 ∧
        ((src.cols : Int) - (p2.x - point.x) = 0 ∨ (src.rows : Int) - (p2.y - point.y) = 0)) := by
    clear hl ht hp1 hp2 hskip
    omega
  obtain ⟨s3, hr, hfit3, hsz3, hp3⟩ := cropRight_spec img p2 s2 (by omega)
  rw [hr]
  simp only
  have hsum3 : ((s3.cols : Int) = min (img.cols : Int) (point.x + src.cols) - p2.x ∧
        (s3.rows : Int) = src.rows - (p2.y - point.y)) ∨
      (s3.cols = 0 ∧ s3.rows = 0 ∧
        (min (img.cols : Int) (point.x + src.cols) ≤ p2.x ∨
          (src.rows : Int) - (p2.y - point.y) = 0)) := by
    clear hl ht hr hp1 hp2 hp3 hsz1 hsz2 hxn hxp hyn hyp hy1 hx1 hx2 hy2 hp1x hrows1
    omega
  obtain ⟨s4, hb, hfit4, hsz4, hp4⟩ := cropBottom_spec img p2 s3 (by omega)
  rw [hb]
  simp only
  have hsum4 : ((s4.cols : Int) = min (img.cols : Int) (point.x + src.cols) - p2.x ∧
        (s4.rows : Int) = min (img.rows : Int) (point.y + src.rows) - p2.y) ∨
      (s4.cols = 0 ∧ s4.rows = 0 ∧
        (min (img.cols : Int) (point.x + src.cols) ≤ p2.x ∨
          min (img.rows : Int) (point.y + src.rows) ≤ p2.y)) := by
    clear hl ht hr hb hp1 hp2 hp3 hp4 hsz1 hsz2 hsz3 hsum2 hxn hxp hyn hyp hy1 hx1 hx2 hy2
      hp1x hrows1
    omega
  have hrect : img.holdsRect p2.x p2.y s4.cols s4.rows := by
    unfold Mat.holdsRect
    clear hl ht hr hb hp1 hp2 hp3 hp4 hsz1 hsz2 hsz3 hsz4 hsum2 hsum3 hxn hxp hyn hyp hy1 hx1
      hx2 hy2 hp1x hrows1 hfit3 hfit4
    omega
  refine ⟨p2, s2, s3, s4, rfl, hr, hb, rfl, hrect, hp2x, hp2y, hsum4, fun i j => ?_⟩
  rw [hp4, hp3, hp2, hp1]
  congr 1 <;> omega

/-- The early returns of `copyImageToOffset`: the point is right of or below the target
(line 137), or the source ends left of column 0 or above row 0.  The target after the
call is the target before it. -/
theorem copyImageToOffset_early (point : Point) (img src : Mat α)
    (h : point.x > img.cols ∨ point.y > img.rows ∨
      (point.x < 0 ∧ point.x + src.cols ≤ 0) ∨ (point.y < 0 ∧ point.y + src.rows ≤ 0)) :
    copyImageToOffset point img src = .ok img := by
  unfold copyImageToOffset
  by_cases hskip : point.x > img.cols ∨ point.y > img.rows
  · rw [if_pos hskip]
  rw [if_neg hskip]
  rcases cropLeft_spec point src with
    ⟨_, _, hl⟩ | ⟨p1, s1, hl, hy1, hx1, hxn, hxp, hsz1, _⟩
  · rw [hl]
  rw [hl]
  simp only
  have hrows : s1.rows = src.rows := by omega
  have hy : point.y < 0 ∧ point.y + src.rows ≤ 0 := by omega
  have ht : cropTop p1 s1 = .ok none := by
    unfold cropTop
    rw [if_pos (by omega), if_neg (by omega)]
  rw [ht]

/-- The copy of `copyImageToOffset`: when the part of the source that falls inside the
target has pixels, the call returns, the target keeps its size, and its pixel `(i, j)` is
the source pixel `(i - point.x, j - point.y)` when that lies inside the source, and the
pixel `(i, j)` of the target before the call otherwise. -/
theorem copyImageToOffset_blit (point : Point) (img src : Mat α)
    (hc : max 0 point.x < min (img.cols : Int) (point.x + src.cols))
    (hr : max 0 point.y < min (img.rows : Int) (point.y + src.rows)) :
    ∃ out, copyImageToOffset point img src = .ok out ∧
      out.cols = img.cols ∧ out.rows = img.rows ∧
      ∀ i j : Int, 0 ≤ i → i < img.cols → 0 ≤ j → j < img.rows →
        out.px i j =
          if 0 ≤ i - point.x ∧ i - point.x < src.cols ∧ 0 ≤ j - point.y ∧ j - point.y < src.rows
          then src.px (i - point.x) (j - point.y) else img.px i j := by
  have hskip : ¬ (point.x > img.cols ∨ point.y > img.rows) := by omega
  rcases copyImageToOffset_run point img src hskip with
    ⟨_, _, _, _⟩ | ⟨p1, s1, _, ⟨_, _, _, _⟩ | ⟨p2, s2, s3, s4, _, _, _, hres, hrect, hpx, hpy, hsz, hp⟩⟩
  · omega
  · omega
  · have hsize : (s4.cols : Int) = min (img.cols : Int) (point.x + src.cols) - p2.x ∧
        (s4.rows : Int) = min (img.rows : Int) (point.y + src.rows) - p2.y := by
      omega
    have hne : ¬ (s4.cols = 0 ∨ s4.rows = 0) := by omega
    rw [hres]
    unfold Mat.copyToRoi
    rw [if_pos hrect, if_neg hne]
    refine ⟨_, rfl, rfl, rfl, fun i j hi hi2 hj hj2 => ?_⟩
    simp only
    by_cases hin : 0 ≤ i - point.x ∧ i - point.x < src.cols ∧
        0 ≤ j - point.y ∧ j - point.y < src.rows
    · rw [if_pos hin, if_pos (by omega), hp]
      congr 1 <;> omega
    · rw [if_neg hin, if_neg (by omega)]

/-- The failure of `copyImageToOffset`: when no early return is taken and the part of the
source that falls inside the target has no pixels, line 166 copies a source without
pixels and the call ends with the failed assertion of `copyTo`. -/
theorem copyImageToOffset_empty (point : Point) (img src : Mat α)
    (hearly : ¬ (point.x > img.cols ∨ point.y > img.rows ∨
      (point.x < 0 ∧ point.x + src.cols ≤ 0) ∨ (point.y < 0 ∧ point.y + src.rows ≤ 0)))
    (hempty : min (img.cols : Int) (point.x + src.cols) ≤ max 0 point.x ∨
      min (img.rows : Int) (point.y + src.rows) ≤ max 0 point.y) :
    copyImageToOffset point img src = .error .emptyCopy := by
  have hskip : ¬ (point.x > img.cols ∨ point.y > img.rows) := by omega
  rcases copyImageToOffset_run point img src hskip with
    ⟨_, _, _, _⟩ | ⟨p1, s1, _, ⟨_, _, _, _⟩ | ⟨p2, s2, s3, s4, _, _, _, hres, hrect, hpx, hpy, hsz, hp⟩⟩
  · omega
  · omega
  · have he : s4.cols = 0 ∨ s4.rows = 0 := by omega
    rw [hres]
    unfold Mat.copyToRoi
    rw [if_pos hrect, if_pos he]

/-- C5: `copyImageToOffset` never takes a rectangle out of bounds.  For every point,
target and source the call never ends in the bounds error of a rectangle selection, and
it runs in one of these ways: it returns from the range test; or the left crop returns
early; or the left crop is made and the top crop returns early; or all four crops and the
selection of the destination rectangle are made.  Each rectangle that is selected lies
inside the matrix it is selected from: `Rect(-point.x, 0, cols + point.x, rows)` of the
source when `point.x < 0`, `Rect(0, -point.y, cols, rows + point.y)` when `point.y < 0`,
`Rect(0, 0, img.cols - point.x, rows)` when the source reaches beyond the right edge,
`Rect(0, 0, cols, img.rows - point.y)` when it reaches beyond the bottom edge, and the
destination `Rect(point.x, point.y, cols, rows)` of the target. -/
theorem copyImageToOffset_rectangles_in_bounds (point : Point) (img src : Mat α) :
    copyImageToOffset point img src ≠ .error .roiBounds ∧
    ((point.x > img.cols ∨ point.y > img.rows) ∨
     cropLeft point src = .ok none ∨
     ∃ p1 s1, cropLeft point src = .ok (some (p1, s1)) ∧
       (0 ≤ point.x ∨ src.holdsRect (-point.x) 0 (src.cols + point.x) src.rows) ∧
       (cropTop p1 s1 = .ok none ∨
        ∃ p2 s2 s3 s4, cropTop p1 s1 = .ok (some (p2, s2)) ∧
          (0 ≤ p1.y ∨ s1.holdsRect 0 (-p1.y) s1.cols (s1.rows + p1.y)) ∧
          cropRight img p2 s2 = .ok s3 ∧
          (p2.x + s2.cols ≤ img.cols ∨ s2.holdsRect 0 0 (img.cols - p2.x) s2.rows) ∧
          cropBottom img p2 s3 = .ok s4 ∧
          (p2.y + s3.rows ≤ img.rows ∨ s3.holdsRect 0 0 s3.cols (img.rows - p2.y)) ∧
          img.holdsRect p2.x p2.y s4.cols s4.rows)) := by
  by_cases hskip : point.x > img.cols ∨ point.y > img.rows
  · refine ⟨?_, Or.inl hskip⟩
    rw [copyImageToOffset_early point img src (by omega)]
    intro h
    cases h
  have hleft : ∀ p1 s1, cropLeft point src = .ok (some (p1, s1)) →
      (0 ≤ point.x ∨ src.holdsRect (-point.x) 0 (src.cols + point.x) src.rows) := by
    intro p1 s1 hl
    by_cases h0 : 0 ≤ point.x
    · exact Or.inl h0
    · right
      have hpos : 0 < point.x + (src.cols : Int) := by
        by_contra hn
        have hnone : cropLeft point src = .ok none := by
          unfold cropLeft
          rw [if_pos (by omega), if_neg (by omega)]
        rw [hnone] at hl
        cases hl
      unfold Mat.holdsRect
      omega
  have htop : ∀ (p1 : Point) (s1 : Mat α) p2 s2, cropTop p1 s1 = .ok (some (p2, s2)) →
      (0 ≤ p1.y ∨ s1.holdsRect 0 (-p1.y) s1.cols (s1.rows + p1.y)) := by
    intro p1 s1 p2 s2 ht
    by_cases h0 : 0 ≤ p1.y
    · exact Or.inl h0
    · right
      have hpos : 0 < p1.y + (s1.rows : Int) := by
        by_contra hn
        have hnone : cropTop p1 s1 = .ok none := by
          unfold cropTop
          rw [if_pos (by omega), if_neg (by omega)]
        rw [hnone] at ht
        cases ht
      unfold Mat.holdsRect
      omega
  rcases copyImageToOffset_run point img src hskip with
    ⟨hl, hres, _⟩ | ⟨p1, s1, hl, ⟨ht, hres, _⟩ |
      ⟨p2, s2, s3, s4, ht, hr, hb, hres, hrect, _⟩⟩
  · refine ⟨?_, Or.inr (Or.inl hl)⟩
    rw [hres]
    intro h
    cases h
  · refine ⟨?_, Or.inr (Or.inr ⟨p1, s1, hl, hleft p1 s1 hl, Or.inl ht⟩)⟩
    rw [hres]
    intro h
    cases h
  · have hx : p2.x ≤ img.cols := by
      have := hrect.2.2.1
      omega
    have hy : p2.y ≤ img.rows := by
      have := hrect.2.2.2.2.2
      omega
    have hright : p2.x + (s2.cols : Int) ≤ img.cols ∨
        s2.holdsRect 0 0 (img.cols - p2.x) s2.rows := by
      by_cases hfit : p2.x + (s2.cols : Int) ≤ img.cols
      · exact Or.inl hfit
      · right
        unfold Mat.holdsRect
        omega
    have hbottom : p2.y + (s3.rows : Int) ≤ img.rows ∨
        s3.holdsRect 0 0 s3.cols (img.rows - p2.y) := by
      by_cases hfit : p2.y + (s3.rows : Int) ≤ img.rows
      · exact Or.inl hfit
      · right
        unfold Mat.holdsRect
        omega
    refine ⟨?_, Or.inr (Or.inr ⟨p1, s1, hl, hleft p1 s1 hl,
      Or.inr ⟨p2, s2, s3, s4, ht, htop p1 s1 p2 s2 ht, hr, hright, hb, hbottom, hrect⟩⟩)⟩
    rw [hres]
    unfold Mat.copyToRoi
    rw [if_pos hrect]
    split
    · intro h
      cases h
    · intro h
      cases h

/-- C10: a point right of the right edge or below the bottom edge writes nothing.  When
`point.x > img.cols` or `point.y > img.rows`, the target after the call is the target
before it. -/
theorem copyImageToOffset_skip (point : Point) (img src : Mat α)
    (h : point.x > img.cols ∨ point.y > img.rows) :
    copyImageToOffset point img src = .ok img := by
  unfold copyImageToOffset
  rw [if_pos h]

/-- Witness of C10: the point `(9, 0)` on an 8 x 8 target. -/
theorem copyImageToOffset_skip_witness :
    ((⟨9, 0⟩ : Point).x > (ramp 8 8).cols ∨ (⟨9, 0⟩ : Point).y > (ramp 8 8).rows) ∧
    copyImageToOffset ⟨9, 0⟩ (ramp 8 8) (plain 4 4 99) = .ok (ramp 8 8) :=
  ⟨by decide, copyImageToOffset_skip ⟨9, 0⟩ (ramp 8 8) (plain 4 4 99) (by decide)⟩

/-! ## The left edge -/

/-- C11: the crop at the left edge.  For a point with `point.x < 0`: when
`point.x + src.cols ≤ 0` nothing is written (the target after the call is the target
before it).  When `point.x + src.cols > 0`, `point.y` is in range (the source covers a row
of the target: `max 0 point.y < min img.rows (point.y + src.rows)`) and the target has
columns, the left crop drops exactly the leftmost `-point.x` columns of the source (the
cropped source has `src.cols + point.x` columns, and its column `i` is the column
`i - point.x` of the source) and moves the point to column 0; the call returns, and
column `i` of the target, for `0 ≤ i < min (src.cols + point.x) img.cols`, holds column
`i - point.x` of the source in every row of the target that the source covers. -/
theorem copyImageToOffset_left_crop (point : Point) (img src : Mat α) (hx : point.x < 0)
    (hdom : point.x + src.cols ≤ 0 ∨
      (max 0 point.y < min (img.rows : Int) (point.y + src.rows) ∧ 0 < img.cols)) :
    (point.x + src.cols ≤ 0 ∧ copyImageToOffset point img src = .ok img) ∨
    (0 < point.x + src.cols ∧
      (∃ s, cropLeft point src = .ok (some (⟨0, point.y⟩, s)) ∧
        (s.cols : Int) = src.cols + point.x ∧ s.rows = src.rows ∧
        ∀ i j, s.px i j = src.px (i - point.x) j) ∧
      ∃ out, copyImageToOffset point img src = .ok out ∧
        ∀ i j : Int, 0 ≤ i → i < min ((src.cols : Int) + point.x) img.cols →
          0 ≤ j → j < img.rows → 0 ≤ j - point.y → j - point.y < src.rows →
          out.px i j = src.px (i - point.x) (j - point.y)) := by
  by_cases h : point.x + (src.cols : Int) ≤ 0
  · left
    exact ⟨h, copyImageToOffset_early point img src (Or.inr (Or.inr (Or.inl ⟨hx, h⟩)))⟩
  · right
    have hrow : max 0 point.y < min (img.rows : Int) (point.y + src.rows) ∧ 0 < img.cols := by
      rcases hdom with hd | hd
      · exact absurd hd h
      · exact hd
    refine ⟨by omega, ?_, ?_⟩
    · have hb : src.holdsRect (-point.x) 0 (src.cols + point.x) src.rows := by
        unfold Mat.holdsRect
        omega
      have hne : ¬ ((src.cols : Int) + point.x = 0 ∨ (src.rows : Int) = 0) := by omega
      unfold cropLeft
      rw [if_pos hx, if_pos (by omega)]
      unfold Mat.roi
      rw [if_pos hb, if_neg hne]
      refine ⟨_, rfl, ?_, ?_, ?_⟩
      · show (((src.cols : Int) + point.x).toNat : Int) = src.cols + point.x
        omega
      · show ((src.rows : Int)).toNat = src.rows
        omega
      · intro i j
        show src.px (-point.x + i) (0 + j) = src.px (i - point.x) j
        congr 1 <;> omega
    · obtain ⟨out, ho, _, _, hpx⟩ :=
        copyImageToOffset_blit point img src (by omega) hrow.1
      refine ⟨out, ho, fun i j hi hi2 hj hj2 hj3 hj4 => ?_⟩
      rw [hpx i j hi (by omega) hj hj2, if_pos (by omega)]

/-- Witness of C11: the point `(-5, 0)` and a 10 x 10 source on an 8 x 8 target; the left
crop leaves 5 columns and the point `(0, 0)`. -/
theorem copyImageToOffset_left_crop_witness :
    (⟨-5, 0⟩ : Point).x < 0 ∧
    ((⟨-5, 0⟩ : Point).x + (ramp 10 10).cols ≤ 0 ∨
      (max 0 (⟨-5, 0⟩ : Point).y <
          min ((plain 8 8 0).rows : Int) ((⟨-5, 0⟩ : Point).y + (ramp 10 10).rows) ∧
        0 < (plain 8 8 0).cols)) ∧
    ((((⟨-5, 0⟩ : Point).x + (ramp 10 10).cols ≤ 0 ∧
        copyImageToOffset ⟨-5, 0⟩ (plain 8 8 0) (ramp 10 10) = .ok (plain 8 8 0)) ∨
      (0 < (⟨-5, 0⟩ : Point).x + (ramp 10 10).cols ∧
        (∃ s, cropLeft ⟨-5, 0⟩ (ramp 10 10) = .ok (some (⟨0, (⟨-5, 0⟩ : Point).y⟩, s)) ∧
          (s.cols : Int) = (ramp 10 10).cols + (⟨-5, 0⟩ : Point).x ∧
          s.rows = (ramp 10 10).rows ∧
          ∀ i j, s.px i j = (ramp 10 10).px (i - (⟨-5, 0⟩ : Point).x) j) ∧
        ∃ out, copyImageToOffset ⟨-5, 0⟩ (plain 8 8 0) (ramp 10 10) = .ok out ∧
          ∀ i j : Int, 0 ≤ i →
            i < min (((ramp 10 10).cols : Int) + (⟨-5, 0⟩ : Point).x) (plain 8 8 0).cols →
            0 ≤ j → j < (plain 8 8 0).rows → 0 ≤ j - (⟨-5, 0⟩ : Point).y →
            j - (⟨-5, 0⟩ : Point).y < (ramp 10 10).rows →
            out.px i j =
              (ramp 10 10).px (i - (⟨-5, 0⟩ : Point).x) (j - (⟨-5, 0⟩ : Point).y)))) ∧
    (cropLeft ⟨-5, 0⟩ (ramp 10 10)).toOption.map
        (fun o => o.map fun ps => (ps.1, ps.2.cols, ps.2.rows)) =
      some (some (⟨0, 0⟩, 5, 10)) ∧
    ((copyImageToOffset ⟨-5, 0⟩ (plain 8 8 0) (ramp 10 10)).toOption.map Mat.toLists).map
        (fun rows => rows.take 2) =
      some [[5, 6, 7, 8, 9, 0, 0, 0], [15, 16, 17, 18, 19, 0, 0, 0]] :=
  ⟨by decide, by decide,
    copyImageToOffset_left_crop ⟨-5, 0⟩ (plain 8 8 0) (ramp 10 10) (by decide) (by decide),
    by decide, by decide⟩

/-! ## The paste of zero size -/

/-- C15, the code at the failing input.  For the point `(8, 3)`, at the right edge of an
8 x 8 target, and for the point `(2, 8)`, at its bottom edge, the range test of line 137
(`point.x > img.cols`, `point.y > img.rows`) does not return, the crop leaves a source
without pixels and line 166 ends with the failed assertion of `copyTo` instead of leaving
the target as it is.  On the other two sides the same case is an early return: for the
point `(-4, 3)`, where the 4 x 4 source ends at column 0, and for the point `(2, -4)` the
target is returned as it is. -/
theorem copyImageToOffset_zero_size_fails :
    copyImageToOffset ⟨8, 3⟩ (ramp 8 8) (plain 4 4 99) = .error .emptyCopy ∧
    copyImageToOffset ⟨2, 8⟩ (ramp 8 8) (plain 4 4 99) = .error .emptyCopy ∧
    copyImageToOffset ⟨-4, 3⟩ (ramp 8 8) (plain 4 4 99) = .ok (ramp 8 8) ∧
    copyImageToOffset ⟨2, -4⟩ (ramp 8 8) (plain 4 4 99) = .ok (ramp 8 8) :=
  ⟨rfl, rfl, rfl, rfl⟩

/-! ## `reduceImage` -/

/-- For a denominator `r ≥ 1` and an image with at least `r` columns and `r` rows,
`reduceImage` returns the resampled image of size `(cols / r, rows / r)`. -/
theorem reduceImage_ok (cv : Imgproc α) (img : Mat α) (r : Int)
    (hr : 1 ≤ r) (hc : r ≤ img.cols) (hrows : r ≤ img.rows) :
    ∃ out, reduceImage cv img r = .ok out ∧
      (out.cols : Int) = (img.cols : Int) / r ∧ (out.rows : Int) = (img.rows : Int) / r ∧
      out.px = cv.resizePx (GaussianBlur cv img) out.cols out.rows := by
  have hc0 : (0 : Int) ≤ img.cols := Int.ofNat_nonneg _
  have hr0 : (0 : Int) ≤ img.rows := Int.ofNat_nonneg _
  have hcd : 1 ≤ (img.cols : Int) / r := Int.le_ediv_of_mul_le (by omega) (by omega)
  have hrd : 1 ≤ (img.rows : Int) / r := Int.le_ediv_of_mul_le (by omega) (by omega)
  have hne : ¬ (img.cols = 0 ∨ img.rows = 0) := by omega
  have hpos : ¬ ((img.cols : Int) / r ≤ 0 ∨ (img.rows : Int) / r ≤ 0) := by omega
  unfold reduceImage resize GaussianBlur
  simp only
  rw [if_neg (by omega : ¬ r = 0), Int.tdiv_eq_ediv hc0 (by omega), Int.tdiv_eq_ediv hr0 (by omega),
    if_neg hne, if_neg hpos]
  exact ⟨_, rfl, Int.toNat_of_nonneg (by omega), Int.toNat_of_nonneg (by omega), rfl⟩

/-- When the requested width or height is zero, `reduceImage` fails in the size
assertion of `resize`. -/
theorem reduceImage_degenerate (cv : Imgproc α) (img : Mat α) (r : Int)
    (hr : 1 ≤ r) (h : (img.cols : Int) < r ∨ (img.rows : Int) < r) :
    reduceImage cv img r = .error .cvAssert := by
  have hc0 : (0 : Int) ≤ img.cols := Int.ofNat_nonneg _
  have hr0 : (0 : Int) ≤ img.rows := Int.ofNat_nonneg _
  have hz : (img.cols : Int) / r ≤ 0 ∨ (img.rows : Int) / r ≤ 0 := by
    rcases h with h | h
    · exact Or.inl (le_of_eq (Int.ediv_eq_zero_of_lt hc0 h))
    · exact Or.inr (le_of_eq (Int.ediv_eq_zero_of_lt hr0 h))
  unfold reduceImage resize GaussianBlur
  simp only
  rw [if_neg (by omega : ¬ r = 0), Int.tdiv_eq_ediv hc0 (by omega), Int.tdiv_eq_ediv hr0 (by omega)]
  by_cases hne : img.cols = 0 ∨ img.rows = 0
  · rw [if_pos hne]
  · rw [if_neg hne, if_pos hz]

/-- C4 as amended: for every reduction factor `r ≥ 1` and every image with at least `r`
columns and `r` rows, `reduceImage` returns an image of size
`(floor (w / r), floor (h / r))`; each dimension of the result is at most that of the
input, and `r = 1` leaves the dimensions as they are. -/
theorem reduceImage_size (cv : Imgproc α) (img : Mat α) (r : Int)
    (hr : 1 ≤ r) (hc : r ≤ img.cols) (hrows : r ≤ img.rows) :
    ∃ out, reduceImage cv img r = .ok out ∧
      (out.cols : Int) = (img.cols : Int) / r ∧ (out.rows : Int) = (img.rows : Int) / r ∧
      out.cols ≤ img.cols ∧ out.rows ≤ img.rows ∧
      (r = 1 → out.cols = img.cols ∧ out.rows = img.rows) := by
  obtain ⟨out, ho, hoc, hor, _⟩ := reduceImage_ok cv img r hr hc hrows
  have h1 : (img.cols : Int) / r ≤ img.cols := Int.ediv_le_self _ (Int.ofNat_nonneg _)
  have h2 : (img.rows : Int) / r ≤ img.rows := Int.ediv_le_self _ (Int.ofNat_nonneg _)
  refine ⟨out, ho, hoc, hor, by omega, by omega, fun h => ?_⟩
  subst h
  rw [Int.ediv_one] at hoc hor
  exact ⟨by omega, by omega⟩

/-- Witness of C4 as amended: a 9 x 5 image and `r = 2` (the result is 4 x 2). -/
theorem reduceImage_size_witness :
    (1 : Int) ≤ 2 ∧ (2 : Int) ≤ (ramp 9 5).cols ∧ (2 : Int) ≤ (ramp 9 5).rows ∧
    ∃ out, reduceImage nearest (ramp 9 5) 2 = .ok out ∧
      (out.cols : Int) = ((ramp 9 5).cols : Int) / 2 ∧
      (out.rows : Int) = ((ramp 9 5).rows : Int) / 2 ∧
      out.cols ≤ (ramp 9 5).cols ∧ out.rows ≤ (ramp 9 5).rows ∧
      ((2 : Int) = 1 → out.cols = (ramp 9 5).cols ∧ out.rows = (ramp 9 5).rows) :=
  ⟨by decide, by decide, by decide,
    reduceImage_size nearest (ramp 9 5) 2 (by decide) (by decide) (by decide)⟩

/-- Counterexample to C4 as stated: for a 1 x 1 image (and for a 3 x 1 image) and `r = 2`
the requested size has a zero dimension, and `reduceImage` returns no image: the call
ends in the size assertion of `resize`. -/
theorem reduceImage_size_fails_when_degenerate :
    reduceImage nearest (ramp 1 1) 2 = .error .cvAssert ∧
    reduceImage nearest (ramp 3 1) 2 = .error .cvAssert ∧
    ¬ ∃ out, reduceImage nearest (ramp 1 1) 2 = .ok out ∧ out.cols = 0 ∧ out.rows = 0 := by
  refine ⟨rfl, rfl, ?_⟩
  rintro ⟨out, h, _⟩
  cases h

/-! ## The offsets of the next level -/

/-- Division of C++ `int` by a positive denominator: the quotient of the absolute values,
with the sign of the numerator (truncation toward zero). -/
theorem tdiv_eq_sign_mul (x r : Int) (hr : 1 ≤ r) :
    Int.tdiv x r = x.sign * ((x.natAbs / r.natAbs : Nat) : Int) := by
  obtain ⟨k, rfl⟩ := Int.eq_ofNat_of_zero_le (by omega : 0 ≤ r)
  cases x with
  | ofNat m =>
    cases m with
    | zero => simp
    | succ m => simp [Int.sign]; rfl
  | negSucc m => simp [Int.sign, Int.tdiv]

/-- C8: offset rescaling.  For every reduction factor `r ≥ 1` and every slot `i` of
`0 .. 9`, slot `i` of `childOffsets` is `(-1, -1)` when slot `i` of `offsetPoints` is
`(-1, -1)`, and otherwise `(x / r, y / r)` with the division truncating toward zero:
each quotient is the quotient of the absolute values with the sign of the numerator. -/
theorem childOffsets_slot (offsetPoints : Offsets) (r : Int) (hr : 1 ≤ r)
    (i : Nat) (hi : i < 10) :
    ∃ p c, offsetPoints.slots[i]? = some p ∧
      (childOffsets offsetPoints r).slots[i]? = some c ∧
      c = (if p.x = -1 ∧ p.y = -1 then ⟨-1, -1⟩
           else ⟨p.x.sign * ((p.x.natAbs / r.natAbs : Nat) : Int),
                 p.y.sign * ((p.y.natAbs / r.natAbs : Nat) : Int)⟩) := by
  have hlen : i < offsetPoints.slots.length := by rw [offsetPoints.size_eq]; exact hi
  refine ⟨offsetPoints.slots[i], _, List.getElem?_eq_getElem hlen, ?_, rfl⟩
  unfold childOffsets
  simp only [List.getElem?_map, List.getElem?_eq_getElem hlen, Option.map_some']
  unfold childOffset
  rw [tdiv_eq_sign_mul _ r hr, tdiv_eq_sign_mul _ r hr]

/-- Witness of C8: the array `(5, 5), (-5, -7), (-1, -1), ...` and `r = 2`; the slots of
`childOffsets` are `(2, 2), (-2, -3), (-1, -1), ...`. -/
theorem childOffsets_slot_witness :
    (1 : Int) ≤ 2 ∧ 0 < 10 ∧
    (∃ p c, (Offsets.padded [⟨5, 5⟩, ⟨-5, -7⟩]).slots[0]? = some p ∧
      (childOffsets (Offsets.padded [⟨5, 5⟩, ⟨-5, -7⟩]) 2).slots[0]? = some c ∧
      c = (if p.x = -1 ∧ p.y = -1 then ⟨-1, -1⟩
           else ⟨p.x.sign * ((p.x.natAbs / (2 : Int).natAbs : Nat) : Int),
                 p.y.sign * ((p.y.natAbs / (2 : Int).natAbs : Nat) : Int)⟩)) ∧
    (childOffsets (Offsets.padded [⟨5, 5⟩, ⟨-5, -7⟩]) 2).slots =
      [⟨2, 2⟩, ⟨-2, -3⟩, ⟨-1, -1⟩, ⟨-1, -1⟩, ⟨-1, -1⟩, ⟨-1, -1⟩, ⟨-1, -1⟩, ⟨-1, -1⟩,
       ⟨-1, -1⟩, ⟨-1, -1⟩] :=
  ⟨by decide, by decide,
    childOffsets_slot (Offsets.padded [⟨5, 5⟩, ⟨-5, -7⟩]) 2 (by decide) 0 (by decide),
    by decide⟩

/-! ## `computeFractals` -/

/-- The body of `computeFractals` at `iteration = 0`. -/
theorem computeFractals_zero (cv : Imgproc α) (image : Mat α) (offsetPoints : Offsets)
    (r : Int) :
    computeFractals cv image 0 offsetPoints r =
      match reduceImage cv image r with
      | .error e => .error e
      | .ok reducedImg => pasteAll reducedImg offsetPoints image := by
  rw [computeFractals]

/-- The body of `computeFractals` at `iteration = n + 1`. -/
theorem computeFractals_succ (cv : Imgproc α) (image : Mat α) (n : Nat)
    (offsetPoints : Offsets) (r : Int) :
    computeFractals cv image (n + 1) offsetPoints r =
      match reduceImage cv image r with
      | .error e => .error e
      | .ok reducedImg =>
        match computeFractals cv reducedImg n (childOffsets offsetPoints r) r with
        | .error e => .error e
        | .ok fractalImg => pasteAll fractalImg offsetPoints image := by
  rw [computeFractals]

/-- An image with at least `r ^ (n + 1)` columns and rows can be reduced, and the result
has at least `r ^ n` columns and rows. -/
theorem reduceImage_pow (cv : Imgproc α) (img : Mat α) (r : Int) (n : Nat)
    (hr : 1 ≤ r) (hc : r ^ (n + 1) ≤ img.cols) (hrows : r ^ (n + 1) ≤ img.rows) :
    ∃ out, reduceImage cv img r = .ok out ∧
      (out.cols : Int) = (img.cols : Int) / r ∧ (out.rows : Int) = (img.rows : Int) / r ∧
      r ^ n ≤ out.cols ∧ r ^ n ≤ out.rows := by
  have hle : r ≤ r ^ (n + 1) := le_self_pow₀ hr (Nat.succ_ne_zero n)
  obtain ⟨out, ho, hoc, hor, _⟩ :=
    reduceImage_ok cv img r hr (le_trans hle hc) (le_trans hle hrows)
  refine ⟨out, ho, hoc, hor, ?_, ?_⟩
  · rw [hoc]
    exact Int.le_ediv_of_mul_le (by omega) (by rw [← pow_succ]; exact hc)
  · rw [hor]
    exact Int.le_ediv_of_mul_le (by omega) (by rw [← pow_succ]; exact hrows)

/-- The loop makes no paste when the first slot has `x = -1` or `y = -1`. -/
theorem pasteAll_stop (fractalImg : Mat α) (offsetPoints : Offsets) (returnValue : Mat α)
    (point : Point) (rest : List Point) (hs : offsetPoints.slots = point :: rest)
    (hp : point.x = -1 ∨ point.y = -1) :
    pasteAll fractalImg offsetPoints returnValue = .ok returnValue := by
  unfold pasteAll
  rw [hs]
  have hn : ¬ (point.x ≠ -1 ∧ point.y ≠ -1) := by
    rintro ⟨h1, h2⟩
    rcases hp with h | h
    · exact h1 h
    · exact h2 h
  cases rest with
  | nil => simp only [pasteLoop, if_neg hn]
  | cons q rest => simp only [pasteLoop, if_neg hn]

/-- The offsets of the next level of the all-sentinel array are the all-sentinel array. -/
theorem childOffsets_all_sentinel (r : Int) :
    childOffsets (Offsets.padded []) r = Offsets.padded [] := by
  rfl

/-- C3 as amended: with an offsets array whose ten slots are all `(-1, -1)`, for every
iteration count `n`, every reduction factor `r ≥ 1` and every image with at least
`r ^ (n + 1)` columns and rows (so that each of the `n + 1` reductions yields an image
with pixels), `computeFractals` returns the input image: same size, same pixels. -/
theorem computeFractals_all_sentinel (cv : Imgproc α) (image : Mat α) (n : Nat) (r : Int)
    (hr : 1 ≤ r) (hc : r ^ (n + 1) ≤ image.cols) (hrows : r ^ (n + 1) ≤ image.rows) :
    computeFractals cv image n (Offsets.padded []) r = .ok image := by
  induction n generalizing image with
  | zero =>
    obtain ⟨red, hred, _⟩ := reduceImage_pow cv image r 0 hr hc hrows
    rw [computeFractals_zero, hred]
    exact pasteAll_stop red _ image ⟨-1, -1⟩ _ rfl (Or.inl rfl)
  | succ n ih =>
    obtain ⟨red, hred, _, _, h1, h2⟩ := reduceImage_pow cv image r (n + 1) hr hc hrows
    rw [computeFractals_succ, hred]
    simp only
    rw [childOffsets_all_sentinel, ih red h1 h2]
    exact pasteAll_stop red _ image ⟨-1, -1⟩ _ rfl (Or.inl rfl)

/-- Witness of C3 as amended: an 8 x 8 image, two iterations and `r = 2`. -/
theorem computeFractals_all_sentinel_witness :
    (1 : Int) ≤ 2 ∧ (2 : Int) ^ (2 + 1) ≤ (ramp 8 8).cols ∧
    (2 : Int) ^ (2 + 1) ≤ (ramp 8 8).rows ∧
    computeFractals nearest (ramp 8 8) 2 (Offsets.padded []) 2 = .ok (ramp 8 8) :=
  ⟨by decide, by decide, by decide,
    computeFractals_all_sentinel nearest (ramp 8 8) 2 2 (by decide) (by decide) (by decide)⟩

/-- Counterexample to C3 as stated: on a 4 x 4 image with two iterations and `r = 2`
(and on a 1 x 1 image with no iteration) the all-sentinel array does not make
`computeFractals` return the input; the third (the first) reduction asks for an image
without pixels and the call ends in the size assertion of `resize`. -/
theorem computeFractals_all_sentinel_fails_when_degenerate :
    computeFractals nearest (ramp 4 4) 2 (Offsets.padded []) 2 = .error .cvAssert ∧
    computeFractals nearest (ramp 1 1) 0 (Offsets.padded []) 2 = .error .cvAssert :=
  ⟨rfl, rfl⟩

/-! ## The paste loop -/

/-- One turn of the loop on a point with `x ≠ -1` and `y ≠ -1`, when a next slot exists. -/
theorem pasteLoop_paste (fractalImg : Mat α) (next : Point) (rest : List Point)
    (point : Point) (returnValue : Mat α) (h : point.x ≠ -1 ∧ point.y ≠ -1) :
    pasteLoop fractalImg (next :: rest) point returnValue =
      match copyImageToOffset point returnValue fractalImg with
      | .error e => .error e
      | .ok returnValue => pasteLoop fractalImg rest next returnValue := by
  rw [pasteLoop, if_pos h]

/-- The loop ends on a point with `x = -1` or `y = -1`. -/
theorem pasteLoop_stop (fractalImg : Mat α) (rest : List Point) (point : Point)
    (returnValue : Mat α) (h : ¬ (point.x ≠ -1 ∧ point.y ≠ -1)) :
    pasteLoop fractalImg rest point returnValue = .ok returnValue := by
  cases rest with
  | nil => rw [pasteLoop, if_neg h]
  | cons q rest => rw [pasteLoop, if_neg h]

/-- C7 as amended: for every image with at least 2 columns and 2 rows, `computeFractals`
with `iteration = 0`, `r = 2` and the offsets `(0, 0), (-1, -1), ..., (-1, -1)` returns an
image of the size of the input whose pixel `(i, j)` is pixel `(i, j)` of
`reduceImage image 2` for `i < floor (w / 2)` and `j < floor (h / 2)`, and the pixel
`(i, j)` of the input everywhere else. -/
theorem computeFractals_single_origin (cv : Imgproc α) (image : Mat α)
    (hc : 2 ≤ image.cols) (hrows : 2 ≤ image.rows) :
    ∃ reduced out, reduceImage cv image 2 = .ok reduced ∧
      computeFractals cv image 0 (Offsets.padded [⟨0, 0⟩]) 2 = .ok out ∧
      reduced.cols = image.cols / 2 ∧ reduced.rows = image.rows / 2 ∧
      out.cols = image.cols ∧ out.rows = image.rows ∧
      ∀ i j : Int, 0 ≤ i → i < image.cols → 0 ≤ j → j < image.rows →
        out.px i j =
          if i < (image.cols / 2 : Nat) ∧ j < (image.rows / 2 : Nat) then reduced.px i j
          else image.px i j := by
  obtain ⟨red, hred, hrc, hrr, _⟩ :=
    reduceImage_ok cv image 2 (by decide) (by omega) (by omega)
  obtain ⟨out, ho, hoc, hor, hpx⟩ :=
    copyImageToOffset_blit ⟨0, 0⟩ image red
      (show max 0 (0 : Int) < min (image.cols : Int) (0 + red.cols) by omega)
      (show max 0 (0 : Int) < min (image.rows : Int) (0 + red.rows) by omega)
  have hs : (Offsets.padded [⟨0, 0⟩]).slots =
      ⟨0, 0⟩ :: ⟨-1, -1⟩ :: List.replicate 8 sentinel := rfl
  refine ⟨red, out, hred, ?_, by omega, by omega, hoc, hor, fun i j hi hi2 hj hj2 => ?_⟩
  · rw [computeFractals_zero, hred]
    simp only
    unfold pasteAll
    rw [hs]
    simp only
    rw [pasteLoop_paste _ _ _ _ _ (by decide), ho]
    exact pasteLoop_stop _ _ _ _ (by decide)
  · rw [hpx i j hi hi2 hj hj2]
    simp only [sub_zero]
    by_cases hin : i < (image.cols / 2 : Nat) ∧ j < (image.rows / 2 : Nat)
    · rw [if_pos hin, if_pos (by omega)]
    · rw [if_neg hin, if_neg (by omega)]

/-- Witness of C7 as amended: the 4 x 4 image with pixels `10 * j + i`; the reduced
image is `0 2 / 20 22` and replaces the top left 2 x 2 pixels. -/
theorem computeFractals_single_origin_witness :
    2 ≤ (ramp 4 4).cols ∧ 2 ≤ (ramp 4 4).rows ∧
    (∃ reduced out, reduceImage nearest (ramp 4 4) 2 = .ok reduced ∧
      computeFractals nearest (ramp 4 4) 0 (Offsets.padded [⟨0, 0⟩]) 2 = .ok out ∧
      reduced.cols = (ramp 4 4).cols / 2 ∧ reduced.rows = (ramp 4 4).rows / 2 ∧
      out.cols = (ramp 4 4).cols ∧ out.rows = (ramp 4 4).rows ∧
      ∀ i j : Int, 0 ≤ i → i < (ramp 4 4).cols → 0 ≤ j → j < (ramp 4 4).rows →
        out.px i j =
          if i < ((ramp 4 4).cols / 2 : Nat) ∧ j < ((ramp 4 4).rows / 2 : Nat)
          then reduced.px i j else (ramp 4 4).px i j) ∧
    (computeFractals nearest (ramp 4 4) 0 (Offsets.padded [⟨0, 0⟩]) 2).toOption.map
        Mat.toLists =
      some [[0, 2, 2, 3], [20, 22, 12, 13], [20, 21, 22, 23], [30, 31, 32, 33]] :=
  ⟨by decide, by decide,
    computeFractals_single_origin nearest (ramp 4 4) (by decide) (by decide), by decide⟩

/-- Counterexample to C7 as stated: on a 1 x 1 image (and on a 5 x 1 image) the call
with `iteration = 0`, `r = 2` and the offsets `(0, 0), (-1, -1), ...` returns no image;
the reduction asks for an image without pixels and the call ends in the size assertion
of `resize`. -/
theorem computeFractals_single_origin_fails_when_degenerate :
    computeFractals nearest (ramp 1 1) 0 (Offsets.padded [⟨0, 0⟩]) 2 = .error .cvAssert ∧
    computeFractals nearest (ramp 5 1) 0 (Offsets.padded [⟨0, 0⟩]) 2 = .error .cvAssert :=
  ⟨rfl, rfl⟩

/-- C2, the code at the failing input.  On the 8 x 8 image with pixels `10 * j + i`,
`iteration = 0` and `r = 2`, the offsets `(-1, 5), (0, 0), (-1, -1), ...` make
`computeFractals` return the input without any paste, and so do the offsets
`(7, -1), (0, 0), (-1, -1), ...`: the loop test `point.x != -1 && point.y != -1` ends the
list at the first point with one coordinate `-1`.  Pasting the fill at `(-1, 5)` and then
at `(0, 0)`, as the points before the first `(-1, -1)` ask for, gives another image. -/
theorem computeFractals_ends_at_single_minus_one :
    computeFractals nearest (ramp 8 8) 0 (Offsets.padded [⟨-1, 5⟩, ⟨0, 0⟩]) 2 =
      .ok (ramp 8 8) ∧
    computeFractals nearest (ramp 8 8) 0 (Offsets.padded [⟨7, -1⟩, ⟨0, 0⟩]) 2 =
      .ok (ramp 8 8) ∧
    ∃ fill first second, reduceImage nearest (ramp 8 8) 2 = .ok fill ∧
      copyImageToOffset ⟨-1, 5⟩ (ramp 8 8) fill = .ok first ∧
      copyImageToOffset ⟨0, 0⟩ first fill = .ok second ∧
      second.toLists =
        [[0, 2, 4, 6, 4, 5, 6, 7], [20, 22, 24, 26, 14, 15, 16, 17],
         [40, 42, 44, 46, 24, 25, 26, 27], [60, 62, 64, 66, 34, 35, 36, 37],
         [40, 41, 42, 43, 44, 45, 46, 47], [2, 4, 6, 53, 54, 55, 56, 57],
         [22, 24, 26, 63, 64, 65, 66, 67], [42, 44, 46, 73, 74, 75, 76, 77]] ∧
      second.toLists ≠ (ramp 8 8).toLists :=
  ⟨rfl, rfl, _, _, _, rfl, rfl, rfl, by decide, by decide⟩

/-- C6, the code at the failing input.  With ten points none of which has `x = -1` or
`y = -1` (the command line with 24 arguments), `computeFractals` pastes the ten points
and then reads `offsetPoints[10]`, past the end of the array, instead of stopping. -/
theorem computeFractals_full_array_reads_past_end :
    computeFractals nearest (ramp 8 8) 0
        (Offsets.padded [⟨0, 0⟩, ⟨4, 0⟩, ⟨0, 4⟩, ⟨4, 4⟩, ⟨2, 2⟩, ⟨1, 1⟩, ⟨3, 3⟩, ⟨5, 5⟩,
          ⟨6, 6⟩, ⟨7, 7⟩]) 2 = .error .outOfBounds ∧
    (computeFractalsT nearest (ramp 8 8) 0
        (Offsets.padded [⟨0, 0⟩, ⟨4, 0⟩, ⟨0, 4⟩, ⟨4, 4⟩, ⟨2, 2⟩, ⟨1, 1⟩, ⟨3, 3⟩, ⟨5, 5⟩,
          ⟨6, 6⟩, ⟨7, 7⟩]) 2).1 =
      Call.reduceImage :: List.replicate 10 Call.copyImageToOffset :=
  ⟨rfl, by decide⟩

/-! ## The record of calls -/

/-- The outcomes of `copyImageToOffset`: it returns a target of the same size, or it ends
with the failed assertion of `copyTo` on a source without pixels. -/
theorem copyImageToOffset_outcome (point : Point) (img src : Mat α) :
    (∃ out, copyImageToOffset point img src = .ok out ∧
      out.cols = img.cols ∧ out.rows = img.rows) ∨
    copyImageToOffset point img src = .error .emptyCopy := by
  by_cases hearly : point.x > img.cols ∨ point.y > img.rows ∨
      (point.x < 0 ∧ point.x + src.cols ≤ 0) ∨ (point.y < 0 ∧ point.y + src.rows ≤ 0)
  · exact Or.inl ⟨img, copyImageToOffset_early point img src hearly, rfl, rfl⟩
  · by_cases hfull : max 0 point.x < min (img.cols : Int) (point.x + src.cols) ∧
        max 0 point.y < min (img.rows : Int) (point.y + src.rows)
    · obtain ⟨out, ho, hc, hr, _⟩ := copyImageToOffset_blit point img src hfull.1 hfull.2
      exact Or.inl ⟨out, ho, hc, hr⟩
    · exact Or.inr (copyImageToOffset_empty point img src hearly (by omega))

/-- The slot `(-1, -1)` stays `(-1, -1)` in the array of the next level. -/
theorem sentinel_mem_childOffsets (offsetPoints : Offsets) (r : Int)
    (h : (⟨-1, -1⟩ : Point) ∈ offsetPoints.slots) :
    (⟨-1, -1⟩ : Point) ∈ (childOffsets offsetPoints r).slots := by
  unfold childOffsets
  exact List.mem_map.mpr ⟨_, h, rfl⟩

/-- The remainder of C++ `%` by 2 on `argc - 4`, for `argc ≥ 2`: it is zero exactly when
`argc` is even. -/
theorem tmod_two_argc (argc : Int) (h : 2 ≤ argc) :
    Int.tmod (argc - MINIMUM_NUMBER_OF_ARGS - 2) 2 ≠ 0 ↔ argc % 2 = 1 := by
  unfold MINIMUM_NUMBER_OF_ARGS
  by_cases h4 : 4 ≤ argc
  · rw [Int.tmod_eq_emod (by omega) (by decide)]
    omega
  · have h23 : argc = 2 ∨ argc = 3 := by omega
    rcases h23 with rfl | rfl <;> decide

/-- The call of `computeFractals` that `main` makes for an accepted command line: for
`argc = 2` the defaults `2`, `2` and the centre of the image followed by nine
`(-1, -1)`; for an even `argc` of `4 .. 24` the two numbers and the `k = (argc - 4) / 2`
points of the command line, followed by `10 - k` times `(-1, -1)`. -/
theorem mainCall_accepted (argc : Int) (arg : Int → Int) (img : Mat α)
    (h : argc = 2 ∨ (4 ≤ argc ∧ argc ≤ 24 ∧ argc % 2 = 0)) :
    mainCall argc arg img = .ok (some
      (if argc = 2 then
        ⟨2, some ⟨Int.tdiv img.cols 2, Int.tdiv img.rows 2⟩ ::
            List.replicate 9 (some ⟨-1, -1⟩), 2⟩
       else
        ⟨arg 3,
         (List.range ((argc - 4) / 2).toNat).map
             (fun (i : Nat) => some (⟨arg (4 + 2 * (i : Int)), arg (5 + 2 * (i : Int))⟩ : Point)) ++
           List.replicate (10 - ((argc - 4) / 2).toNat) (some ⟨-1, -1⟩),
         arg 2⟩)) := by
  rcases h with rfl | ⟨h1, h2, h3⟩
  · rfl
  · interval_cases argc <;> first | rfl | (exfalso; revert h3; decide)

/-- C12: the tests of `main` on the number of arguments.  For every `argc ≥ 2`, `main`
returns `-1` before the call of `computeFractals` exactly when the number `argc - 4` of
coordinate values is odd or stands for more than 10 points, and it reaches the call
exactly when `argc = 2` or `argc` is an even number of `4 .. 24`. -/
theorem mainCall_argc_validation (argc : Int) (arg : Int → Int) (img : Mat α)
    (h : 2 ≤ argc) :
    (mainCall argc arg img = .ok none ↔ ((argc - 4) % 2 = 1 ∨ 10 < (argc - 4) / 2)) ∧
    ((∃ call, mainCall argc arg img = .ok (some call)) ↔
      (argc = 2 ∨ (4 ≤ argc ∧ argc ≤ 24 ∧ argc % 2 = 0))) := by
  by_cases hacc : argc = 2 ∨ (4 ≤ argc ∧ argc ≤ 24 ∧ argc % 2 = 0)
  · rw [mainCall_accepted argc arg img hacc]
    refine ⟨⟨fun hn => ?_, fun hr => ?_⟩, ⟨fun _ => hacc, fun _ => ⟨_, rfl⟩⟩⟩
    · cases hn
    · omega
  · have hrej : mainCall argc arg img = .ok none := by
      unfold mainCall
      rw [if_neg (show ¬ argc < MINIMUM_NUMBER_OF_ARGS by unfold MINIMUM_NUMBER_OF_ARGS; omega)]
      by_cases hmax : argc > MAXIMUM_NUMBER_OF_ARGS
      · rw [if_pos hmax]
      · rw [if_neg hmax, if_pos ((tmod_two_argc argc h).mpr (by
          unfold MAXIMUM_NUMBER_OF_ARGS at hmax; omega))]
    rw [hrej]
    refine ⟨⟨fun _ => by omega, fun _ => rfl⟩, ⟨fun hc => ?_, fun ha => absurd ha hacc⟩⟩
    obtain ⟨call, hcall⟩ := hc
    cases hcall

/-- Witness of C12: `argc = 6` is accepted. -/
theorem mainCall_argc_validation_witness :
    (2 : Int) ≤ 6 ∧
    ((mainCall 6 (fun k => 100 + k) (ramp 8 6) = .ok none ↔
        (((6 : Int) - 4) % 2 = 1 ∨ 10 < ((6 : Int) - 4) / 2)) ∧
     ((∃ call, mainCall 6 (fun k => 100 + k) (ramp 8 6) = .ok (some call)) ↔
        ((6 : Int) = 2 ∨ ((4 : Int) ≤ 6 ∧ (6 : Int) ≤ 24 ∧ (6 : Int) % 2 = 0)))) ∧
    mainCall 3 (fun k => 100 + k) (ramp 8 6) = .ok none ∧
    mainCall 26 (fun k => 100 + k) (ramp 8 6) = .ok none :=
  ⟨by decide, mainCall_argc_validation 6 (fun k => 100 + k) (ramp 8 6) (by decide), rfl, rfl⟩

/-- C13, the code at the failing input.  With `argc = 4` (the image path, the reduction
factor and the iteration count, no offsets) the array that `main` passes to
`computeFractals` holds `(-1, -1)` in all ten slots: slot 0 is not the centre of the
image, and no paste is made.  With `argc = 2` slot 0 is the centre, `(4, 3)` for an 8 x 6
image. -/
theorem mainCall_four_arguments_no_centre :
    mainCall 4 (fun _ => 2) (ramp 8 6) =
      .ok (some ⟨2, List.replicate 10 (some ⟨-1, -1⟩), 2⟩) ∧
    mainCall 2 (fun _ => 2) (ramp 8 6) =
      .ok (some ⟨2, some ⟨4, 3⟩ :: List.replicate 9 (some ⟨-1, -1⟩), 2⟩) :=
  ⟨rfl, rfl⟩

/-- C18: `main` builds a well-formed offsets array.  For every accepted `argc` (2, or
even in `4 .. 24`) the call of `computeFractals` is reached, each of the ten slots of
`offsetPoints` has been assigned, the first `k` slots hold the points of the command
line in their order (`k = (argc - 4) / 2`; for `argc = 2` the one point is the centre of
the image), the slots `k .. 9` hold `(-1, -1)`, and the padding block is skipped
(`argc < MAXIMUM_NUMBER_OF_ARGS` fails) exactly when `k = 10`. -/
theorem mainCall_offsets_well_formed (argc : Int) (arg : Int → Int) (img : Mat α)
    (h : argc = 2 ∨ (4 ≤ argc ∧ argc ≤ 24 ∧ argc % 2 = 0)) :
    ∃ call points, mainCall argc arg img = .ok (some call) ∧
      points =
        (if argc = 2 then [(⟨Int.tdiv img.cols 2, Int.tdiv img.rows 2⟩ : Point)]
         else (List.range ((argc - 4) / 2).toNat).map
           (fun (i : Nat) => (⟨arg (4 + 2 * (i : Int)), arg (5 + 2 * (i : Int))⟩ : Point))) ∧
      call.offsetPoints =
        (points ++ List.replicate (10 - points.length) (⟨-1, -1⟩ : Point)).map some ∧
      call.offsetPoints.length = 10 ∧
      (∀ i, i < 10 → ∃ p, call.offsetPoints[i]? = some (some p)) ∧
      (points.length = 10 ↔ ¬ argc < MAXIMUM_NUMBER_OF_ARGS) := by
  have hlen : ∀ points : List Point, points.length ≤ 10 →
      ((points ++ List.replicate (10 - points.length) (⟨-1, -1⟩ : Point)).map some).length
        = 10 := by
    intro points hp
    rw [List.length_map, List.length_append, List.length_replicate]
    omega
  have hall : ∀ l : List Point, (l.map some).length = 10 →
      ∀ i, i < 10 → ∃ p, (l.map some)[i]? = some (some p) := by
    intro l hl i hi
    rw [List.length_map] at hl
    exact ⟨l[i], by rw [List.getElem?_map, List.getElem?_eq_getElem (by omega)]; rfl⟩
  have hfrom : ∀ (call : CoreCall) (points : List Point), points.length ≤ 10 →
      call.offsetPoints =
        (points ++ List.replicate (10 - points.length) (⟨-1, -1⟩ : Point)).map some →
      call.offsetPoints.length = 10 ∧
      ∀ i, i < 10 → ∃ p, call.offsetPoints[i]? = some (some p) := by
    intro call points hp heq
    rw [heq]
    exact ⟨hlen points hp, hall _ (hlen points hp)⟩
  rw [mainCall_accepted argc arg img h]
  by_cases h2 : argc = 2
  · subst h2
    have heq : (⟨2, some ⟨Int.tdiv img.cols 2, Int.tdiv img.rows 2⟩ ::
          List.replicate 9 (some ⟨-1, -1⟩), 2⟩ : CoreCall).offsetPoints =
        (([(⟨Int.tdiv img.cols 2, Int.tdiv img.rows 2⟩ : Point)]) ++
          List.replicate (10 - [(⟨Int.tdiv img.cols 2, Int.tdiv img.rows 2⟩ : Point)].length)
            (⟨-1, -1⟩ : Point)).map some := rfl
    obtain ⟨h10, hass⟩ := hfrom _ _ (by rw [List.length_singleton]; omega) heq
    refine ⟨_, _, rfl, rfl, heq, h10, hass, ?_⟩
    simp [MAXIMUM_NUMBER_OF_ARGS]
  · have h4 : 4 ≤ argc ∧ argc ≤ 24 ∧ argc % 2 = 0 := by
      rcases h with h | h
      · exact absurd h h2
      · exact h
    have hk : ((argc - 4) / 2).toNat ≤ 10 := by omega
    simp only [if_neg h2]
    have hpl : ((List.range ((argc - 4) / 2).toNat).map
        (fun (i : Nat) => (⟨arg (4 + 2 * (i : Int)), arg (5 + 2 * (i : Int))⟩ : Point))).length
          = ((argc - 4) / 2).toNat := by
      rw [List.length_map, List.length_range]
    have heq : (⟨arg 3, (List.range ((argc - 4) / 2).toNat).map
          (fun (i : Nat) => some (⟨arg (4 + 2 * (i : Int)), arg (5 + 2 * (i : Int))⟩ : Point)) ++
          List.replicate (10 - ((argc - 4) / 2).toNat) (some (⟨-1, -1⟩ : Point)),
          arg 2⟩ : CoreCall).offsetPoints =
        ((List.range ((argc - 4) / 2).toNat).map
          (fun (i : Nat) => (⟨arg (4 + 2 * (i : Int)), arg (5 + 2 * (i : Int))⟩ : Point)) ++
          List.replicate (10 - ((List.range ((argc - 4) / 2).toNat).map
            (fun (i : Nat) =>
              (⟨arg (4 + 2 * (i : Int)), arg (5 + 2 * (i : Int))⟩ : Point))).length)
              (⟨-1, -1⟩ : Point)).map some := by
      rw [hpl, List.map_append, List.map_map, List.map_replicate]
      rfl
    obtain ⟨h10, hass⟩ := hfrom _ _ (by rw [hpl]; exact hk) heq
    refine ⟨_, _, rfl, rfl, heq, h10, hass, ?_⟩
    rw [hpl]
    unfold MAXIMUM_NUMBER_OF_ARGS
    omega

/-- Witness of C18: `argc = 8`, two points. -/
theorem mainCall_offsets_well_formed_witness :
    ((8 : Int) = 2 ∨ ((4 : Int) ≤ 8 ∧ (8 : Int) ≤ 24 ∧ (8 : Int) % 2 = 0)) ∧
    (∃ call points, mainCall 8 (fun k => 100 + k) (ramp 8 6) = .ok (some call) ∧
      points =
        (if (8 : Int) = 2 then
          [(⟨Int.tdiv (ramp 8 6).cols 2, Int.tdiv (ramp 8 6).rows 2⟩ : Point)]
         else (List.range (((8 : Int) - 4) / 2).toNat).map
           (fun (i : Nat) => (⟨(fun k => 100 + k) (4 + 2 * (i : Int)),
             (fun k => 100 + k) (5 + 2 * (i : Int))⟩ : Point))) ∧
      call.offsetPoints =
        (points ++ List.replicate (10 - points.length) (⟨-1, -1⟩ : Point)).map some ∧
      call.offsetPoints.length = 10 ∧
      (∀ i, i < 10 → ∃ p, call.offsetPoints[i]? = some (some p)) ∧
      (points.length = 10 ↔ ¬ (8 : Int) < MAXIMUM_NUMBER_OF_ARGS)) ∧
    mainCall 8 (fun k => 100 + k) (ramp 8 6) =
      .ok (some ⟨103, [some ⟨104, 105⟩, some ⟨106, 107⟩, some ⟨-1, -1⟩, some ⟨-1, -1⟩,
        some ⟨-1, -1⟩, some ⟨-1, -1⟩, some ⟨-1, -1⟩, some ⟨-1, -1⟩, some ⟨-1, -1⟩,
        some ⟨-1, -1⟩], 102⟩) :=
  ⟨by decide, mainCall_offsets_well_formed 8 (fun k => 100 + k) (ramp 8 6) (by decide), rfl⟩

/-! ## Degenerate sizes -/

/-- C14: a degenerate reduction ends in an error.  For every reduction factor `r ≥ 1` and
every image of size `(w, h)` with `floor (w / r) = 0` or `floor (h / r) = 0`,
`reduceImage` returns no image (so none with a zero dimension): the call ends with the
failed size assertion of `resize`, to which `reduceImage` passes the size unchecked. -/
theorem reduceImage_degenerate_is_error (cv : Imgproc α) (img : Mat α) (r : Int)
    (hr : 1 ≤ r) (h : (img.cols : Int) / r = 0 ∨ (img.rows : Int) / r = 0) :
    reduceImage cv img r = .error .cvAssert ∧ ¬ ∃ out, reduceImage cv img r = .ok out := by
  have hlt : (img.cols : Int) < r ∨ (img.rows : Int) < r := by
    rcases h with h | h
    · left
      by_contra hn
      have h1 : 1 ≤ (img.cols : Int) / r := Int.le_ediv_of_mul_le (by omega) (by omega)
      omega
    · right
      by_contra hn
      have h1 : 1 ≤ (img.rows : Int) / r := Int.le_ediv_of_mul_le (by omega) (by omega)
      omega
  have he := reduceImage_degenerate cv img r hr hlt
  refine ⟨he, ?_⟩
  rintro ⟨out, ho⟩
  rw [he] at ho
  cases ho

/-- Witness of C14: a 3 x 1 image and `r = 2` (the requested size is 1 x 0). -/
theorem reduceImage_degenerate_is_error_witness :
    (1 : Int) ≤ 2 ∧
    (((ramp 3 1).cols : Int) / 2 = 0 ∨ ((ramp 3 1).rows : Int) / 2 = 0) ∧
    (reduceImage nearest (ramp 3 1) 2 = .error .cvAssert ∧
      ¬ ∃ out, reduceImage nearest (ramp 3 1) 2 = .ok out) :=
  ⟨by decide, by decide,
    reduceImage_degenerate_is_error nearest (ramp 3 1) 2 (by decide) (by decide)⟩

/-! ## The levels of the recursion -/

/-- The function `computeFractals` pastes the fractal fill of its level. -/
theorem computeFractals_eq_fill (cv : Imgproc α) (image : Mat α) (n : Nat)
    (offsetPoints : Offsets) (r : Int) :
    computeFractals cv image n offsetPoints r =
      match fractalFill cv image n offsetPoints r with
      | .error e => .error e
      | .ok fractalImg => pasteAll fractalImg offsetPoints image := by
  unfold fractalFill
  cases n with
  | zero =>
    rw [computeFractals_zero]
    cases reduceImage cv image r <;> rfl
  | succ n =>
    rw [computeFractals_succ]
    cases reduceImage cv image r <;> rfl

/-- An image returned by `reduceImage` with `r ≥ 1` has size `(cols / r, rows / r)`. -/
theorem reduceImage_ok_size (cv : Imgproc α) (img : Mat α) (r : Int) (hr : 1 ≤ r)
    (red : Mat α) (h : reduceImage cv img r = .ok red) :
    (red.cols : Int) = (img.cols : Int) / r ∧ (red.rows : Int) = (img.rows : Int) / r := by
  by_cases hsmall : (img.cols : Int) < r ∨ (img.rows : Int) < r
  · rw [reduceImage_degenerate cv img r hr hsmall] at h
    cases h
  · obtain ⟨out, ho, hoc, hor, _⟩ := reduceImage_ok cv img r hr (by omega) (by omega)
    rw [ho] at h
    cases h
    exact ⟨hoc, hor⟩

/-- An image returned by the paste loop has the size of `returnValue`. -/
theorem pasteLoop_ok_size (fractalImg : Mat α) (rest : List Point) (point : Point)
    (returnValue out : Mat α) (h : pasteLoop fractalImg rest point returnValue = .ok out) :
    out.cols = returnValue.cols ∧ out.rows = returnValue.rows := by
  induction rest generalizing point returnValue with
  | nil =>
    by_cases hp : point.x ≠ -1 ∧ point.y ≠ -1
    · rw [pasteLoop, if_pos hp] at h
      cases hcopy : copyImageToOffset point returnValue fractalImg with
      | error e => rw [hcopy] at h; cases h
      | ok mid => rw [hcopy] at h; cases h
    · rw [pasteLoop_stop _ _ _ _ hp] at h
      cases h
      exact ⟨rfl, rfl⟩
  | cons next rest ih =>
    by_cases hp : point.x ≠ -1 ∧ point.y ≠ -1
    · rw [pasteLoop_paste _ _ _ _ _ hp] at h
      rcases copyImageToOffset_outcome point returnValue fractalImg with
        ⟨mid, hmid, hmc, hmr⟩ | herr
      · rw [hmid] at h
        obtain ⟨h1, h2⟩ := ih next mid h
        exact ⟨by omega, by omega⟩
      · rw [herr] at h
        cases h
    · rw [pasteLoop_stop _ _ _ _ hp] at h
      cases h
      exact ⟨rfl, rfl⟩

/-- An image returned by `pasteAll` has the size of `returnValue`. -/
theorem pasteAll_ok_size (fractalImg : Mat α) (offsetPoints : Offsets)
    (returnValue out : Mat α) (h : pasteAll fractalImg offsetPoints returnValue = .ok out) :
    out.cols = returnValue.cols ∧ out.rows = returnValue.rows := by
  unfold pasteAll at h
  cases hs : offsetPoints.slots with
  | nil => rw [hs] at h; cases h
  | cons point rest =>
    rw [hs] at h
    exact pasteLoop_ok_size fractalImg rest point returnValue out h

/-- An image returned by `computeFractals` has the size of the input. -/
theorem computeFractals_ok_size (cv : Imgproc α) (image : Mat α) (n : Nat)
    (offsetPoints : Offsets) (r : Int) (out : Mat α)
    (h : computeFractals cv image n offsetPoints r = .ok out) :
    out.cols = image.cols ∧ out.rows = image.rows := by
  rw [computeFractals_eq_fill] at h
  cases hfill : fractalFill cv image n offsetPoints r with
  | error e => rw [hfill] at h; cases h
  | ok fill =>
    rw [hfill] at h
    exact pasteAll_ok_size fill offsetPoints image out h

/-- A fractal fill, when there is one, has size `(cols / r, rows / r)`. -/
theorem fractalFill_ok_size (cv : Imgproc α) (image : Mat α) (n : Nat)
    (offsetPoints : Offsets) (r : Int) (hr : 1 ≤ r) (fill : Mat α)
    (h : fractalFill cv image n offsetPoints r = .ok fill) :
    (fill.cols : Int) = (image.cols : Int) / r ∧ (fill.rows : Int) = (image.rows : Int) / r := by
  unfold fractalFill at h
  cases hred : reduceImage cv image r with
  | error e => rw [hred] at h; cases h
  | ok red =>
    rw [hred] at h
    obtain ⟨hc, hrows⟩ := reduceImage_ok_size cv image r hr red hred
    cases n with
    | zero =>
      cases h
      exact ⟨hc, hrows⟩
    | succ n =>
      obtain ⟨h1, h2⟩ := computeFractals_ok_size cv red n _ r fill h
      exact ⟨by omega, by omega⟩

/-- A paste of a source with pixels onto a target with pixels, at a point whose `x` is not
the width of the target and whose `y` is not its height, returns. -/
theorem copyImageToOffset_returns (point : Point) (img src : Mat α)
    (hs : 0 < src.cols ∧ 0 < src.rows) (hi : 0 < img.cols ∧ 0 < img.rows)
    (hx : point.x ≠ img.cols) (hy : point.y ≠ img.rows) :
    ∃ out, copyImageToOffset point img src = .ok out ∧
      out.cols = img.cols ∧ out.rows = img.rows := by
  by_cases hearly : point.x > img.cols ∨ point.y > img.rows ∨
      (point.x < 0 ∧ point.x + src.cols ≤ 0) ∨ (point.y < 0 ∧ point.y + src.rows ≤ 0)
  · exact ⟨img, copyImageToOffset_early point img src hearly, rfl, rfl⟩
  · obtain ⟨out, ho, hc, hr, _⟩ :=
      copyImageToOffset_blit point img src (by omega) (by omega)
    exact ⟨out, ho, hc, hr⟩

/-- The paste loop returns when the fill and the target have pixels, no point that is
still to be read has the width of the target as `x` or its height as `y`, and the current
point or a later slot ends the loop. -/
theorem pasteLoop_returns (fractalImg : Mat α) (rest : List Point) (point : Point)
    (returnValue : Mat α)
    (hf : 0 < fractalImg.cols ∧ 0 < fractalImg.rows)
    (hi : 0 < returnValue.cols ∧ 0 < returnValue.rows)
    (hpts : ∀ p ∈ point :: rest, p.x ≠ returnValue.cols ∧ p.y ≠ returnValue.rows)
    (h : ¬ (point.x ≠ -1 ∧ point.y ≠ -1) ∨ ∃ q ∈ rest, ¬ (q.x ≠ -1 ∧ q.y ≠ -1)) :
    ∃ out, pasteLoop fractalImg rest point returnValue = .ok out ∧
      out.cols = returnValue.cols ∧ out.rows = returnValue.rows := by
  induction rest generalizing point returnValue with
  | nil =>
    rcases h with h | ⟨q, hq, _⟩
    · exact ⟨returnValue, pasteLoop_stop _ _ _ _ h, rfl, rfl⟩
    · cases hq
  | cons next rest ih =>
    by_cases hp : point.x ≠ -1 ∧ point.y ≠ -1
    · have hpt := hpts point (List.mem_cons_self point _)
      obtain ⟨mid, hmid, hmc, hmr⟩ :=
        copyImageToOffset_returns point returnValue fractalImg hf hi hpt.1 hpt.2
      have hnext : ¬ (next.x ≠ -1 ∧ next.y ≠ -1) ∨ ∃ q ∈ rest, ¬ (q.x ≠ -1 ∧ q.y ≠ -1) := by
        rcases h with h | ⟨q, hq, hqs⟩
        · exact absurd hp h
        · rcases List.mem_cons.mp hq with rfl | hq
          · exact Or.inl hqs
          · exact Or.inr ⟨q, hq, hqs⟩
      have hpts2 : ∀ p ∈ next :: rest, p.x ≠ mid.cols ∧ p.y ≠ mid.rows := by
        intro p hp2
        have := hpts p (List.mem_cons_of_mem point hp2)
        rw [hmc, hmr]
        exact this
      obtain ⟨out, ho, hoc, hor⟩ := ih next mid (by omega) hpts2 hnext
      refine ⟨out, ?_, by omega, by omega⟩
      rw [pasteLoop_paste _ _ _ _ _ hp, hmid]
      exact ho
    · exact ⟨returnValue, pasteLoop_stop _ _ _ _ hp, rfl, rfl⟩

/-- The function `pasteAll` returns under the conditions of `pasteLoop_returns`, with
`(-1, -1)` in one of the slots. -/
theorem pasteAll_returns (fractalImg : Mat α) (offsetPoints : Offsets) (returnValue : Mat α)
    (hf : 0 < fractalImg.cols ∧ 0 < fractalImg.rows)
    (hi : 0 < returnValue.cols ∧ 0 < returnValue.rows)
    (hpts : ∀ p ∈ offsetPoints.slots, p.x ≠ returnValue.cols ∧ p.y ≠ returnValue.rows)
    (h : (⟨-1, -1⟩ : Point) ∈ offsetPoints.slots) :
    ∃ out, pasteAll fractalImg offsetPoints returnValue = .ok out ∧
      out.cols = returnValue.cols ∧ out.rows = returnValue.rows := by
  unfold pasteAll
  cases hs : offsetPoints.slots with
  | nil => rw [hs] at h; cases h
  | cons point rest =>
    rw [hs] at h hpts
    simp only
    apply pasteLoop_returns _ _ _ _ hf hi hpts
    rcases List.mem_cons.mp h with h | h
    · left
      rw [← h]
      decide
    · right
      exact ⟨_, h, by decide⟩

/-- A coordinate that is negative or at least `k * r` away from the size `W` rescales to
a coordinate that is negative or at least `k` away from the size `W / r`. -/
theorem tdiv_clear (c W r k : Int) (hr : 1 ≤ r) (hkW : k ≤ W / r)
    (h : c < 0 ∨ c + k * r ≤ W ∨ W + k * r ≤ c) :
    Int.tdiv c r < 0 ∨ Int.tdiv c r + k ≤ W / r ∨ W / r + k ≤ Int.tdiv c r := by
  by_cases hc : c < 0
  · have hneg : Int.tdiv c r ≤ 0 := by
      have h1 : Int.tdiv c r = -(Int.tdiv (-c) r) := by
        rw [Int.neg_tdiv, neg_neg]
      have h2 : 0 ≤ Int.tdiv (-c) r := Int.tdiv_nonneg (by omega) (by omega)
      omega
    by_cases hz : Int.tdiv c r < 0
    · exact Or.inl hz
    · right
      left
      omega
  · rw [Int.tdiv_eq_ediv (by omega) (by omega)]
    rcases h with h | h | h
    · exact absurd h hc
    · right
      left
      have h1 : (c + k * r) / r ≤ W / r := Int.ediv_le_ediv (by omega) h
      rw [Int.add_mul_ediv_right c k (by omega)] at h1
      exact h1
    · right
      right
      have h1 : (W + k * r) / r ≤ c / r := Int.ediv_le_ediv (by omega) h
      rw [Int.add_mul_ediv_right W k (by omega)] at h1
      exact h1

/-- Sufficient for `computeFractals` to return: `r ≥ 1`, at least `r ^ (n + 1)` columns
and rows, `(-1, -1)` in one of the slots, and every coordinate in the slots negative or
at least `r ^ n` away from the width (for `x`) or the height (for `y`) of the image. -/
theorem computeFractals_returns (cv : Imgproc α) (image : Mat α) (n : Nat)
    (offsetPoints : Offsets) (r : Int)
    (hr : 1 ≤ r) (hc : r ^ (n + 1) ≤ image.cols) (hrows : r ^ (n + 1) ≤ image.rows)
    (hs : (⟨-1, -1⟩ : Point) ∈ offsetPoints.slots)
    (hpts : ∀ p ∈ offsetPoints.slots,
      (p.x < 0 ∨ p.x + r ^ n ≤ image.cols ∨ image.cols + r ^ n ≤ p.x) ∧
      (p.y < 0 ∨ p.y + r ^ n ≤ image.rows ∨ image.rows + r ^ n ≤ p.y)) :
    ∃ out, computeFractals cv image n offsetPoints r = .ok out ∧
      out.cols = image.cols ∧ out.rows = image.rows := by
  induction n generalizing image offsetPoints with
  | zero =>
    obtain ⟨red, hred, hrc, hrr, h1, h2⟩ := reduceImage_pow cv image r 0 hr hc hrows
    rw [pow_zero] at h1 h2
    rw [zero_add, pow_one] at hc hrows
    have hfill : fractalFill cv image 0 offsetPoints r = .ok red := by
      unfold fractalFill
      rw [hred]
    have hne : ∀ p ∈ offsetPoints.slots, p.x ≠ image.cols ∧ p.y ≠ image.rows := by
      intro p hp
      have := hpts p hp
      rw [pow_zero] at this
      omega
    obtain ⟨out, ho, hoc, hor⟩ :=
      pasteAll_returns red offsetPoints image (by omega) (by omega) hne hs
    refine ⟨out, ?_, hoc, hor⟩
    rw [computeFractals_eq_fill, hfill]
    exact ho
  | succ n ih =>
    obtain ⟨red, hred, hrc, hrr, h1, h2⟩ := reduceImage_pow cv image r (n + 1) hr hc hrows
    have hpow : (1 : Int) ≤ r ^ (n + 1) := one_le_pow₀ hr
    have hmono : r ^ n ≤ r ^ (n + 1) := pow_le_pow_right₀ hr (Nat.le_succ n)
    have hchild : ∀ p ∈ (childOffsets offsetPoints r).slots,
        (p.x < 0 ∨ p.x + r ^ n ≤ red.cols ∨ red.cols + r ^ n ≤ p.x) ∧
        (p.y < 0 ∨ p.y + r ^ n ≤ red.rows ∨ red.rows + r ^ n ≤ p.y) := by
      intro p hp
      unfold childOffsets at hp
      obtain ⟨q, hq, rfl⟩ := List.mem_map.mp hp
      have hqc := hpts q hq
      unfold childOffset
      by_cases hsent : q.x = -1 ∧ q.y = -1
      · rw [if_pos hsent]
        exact ⟨Or.inl (by decide), Or.inl (by decide)⟩
      · rw [if_neg hsent, hrc, hrr]
        rw [pow_succ] at hqc
        exact ⟨tdiv_clear q.x image.cols r (r ^ n) hr (by omega) hqc.1,
          tdiv_clear q.y image.rows r (r ^ n) hr (by omega) hqc.2⟩
    obtain ⟨fill, hfo, hfc, hfr⟩ :=
      ih red (childOffsets offsetPoints r) h1 h2
        (sentinel_mem_childOffsets offsetPoints r hs) hchild
    have hfill : fractalFill cv image (n + 1) offsetPoints r = .ok fill := by
      unfold fractalFill
      rw [hred]
      exact hfo
    have hbig : (1 : Int) ≤ r ^ (n + 1 + 1) := one_le_pow₀ hr
    have hne : ∀ p ∈ offsetPoints.slots, p.x ≠ image.cols ∧ p.y ≠ image.rows := by
      intro p hp
      have := hpts p hp
      omega
    obtain ⟨out, ho, hoc, hor⟩ :=
      pasteAll_returns fill offsetPoints image (by omega) (by omega) hne hs
    refine ⟨out, ?_, hoc, hor⟩
    rw [computeFractals_eq_fill, hfill]
    exact ho

/-- C17 as amended: `computeFractals` keeps the size.  For every image of size `(w, h)`,
every iteration count `n`, every reduction factor `r ≥ 1` and every offsets array:
whenever `computeFractals` returns an image, that image has size `(w, h)` and the fractal
fill pasted at this level has size `(floor (w / r), floor (h / r))`; and `computeFractals`
does return an image when the image has at least `r ^ (n + 1)` columns and rows, `(-1, -1)`
is in one of the slots, and every coordinate in the slots is negative or at least `r ^ n`
away from the width (for `x`) or the height (for `y`) of the image.  (The statement holds
for every image, so for the image of each level of the recursion.) -/
theorem computeFractals_size (cv : Imgproc α) (image : Mat α) (n : Nat)
    (offsetPoints : Offsets) (r : Int) (hr : 1 ≤ r) :
    (∀ out, computeFractals cv image n offsetPoints r = .ok out →
      out.cols = image.cols ∧ out.rows = image.rows ∧
      ∃ fill, fractalFill cv image n offsetPoints r = .ok fill ∧
        (fill.cols : Int) = (image.cols : Int) / r ∧
        (fill.rows : Int) = (image.rows : Int) / r) ∧
    (r ^ (n + 1) ≤ image.cols → r ^ (n + 1) ≤ image.rows →
      (⟨-1, -1⟩ : Point) ∈ offsetPoints.slots →
      (∀ p ∈ offsetPoints.slots,
        (p.x < 0 ∨ p.x + r ^ n ≤ image.cols ∨ image.cols + r ^ n ≤ p.x) ∧
        (p.y < 0 ∨ p.y + r ^ n ≤ image.rows ∨ image.rows + r ^ n ≤ p.y)) →
      ∃ out, computeFractals cv image n offsetPoints r = .ok out) := by
  constructor
  · intro out h
    obtain ⟨hoc, hor⟩ := computeFractals_ok_size cv image n offsetPoints r out h
    refine ⟨hoc, hor, ?_⟩
    rw [computeFractals_eq_fill] at h
    cases hfill : fractalFill cv image n offsetPoints r with
    | error e => rw [hfill] at h; cases h
    | ok fill =>
      obtain ⟨h1, h2⟩ := fractalFill_ok_size cv image n offsetPoints r hr fill hfill
      exact ⟨fill, rfl, h1, h2⟩
  · intro hc hrows hs hpts
    obtain ⟨out, ho, _⟩ := computeFractals_returns cv image n offsetPoints r hr hc hrows hs hpts
    exact ⟨out, ho⟩

/-- Witness of C17 as amended: an 8 x 8 image, one iteration, `r = 2` and the offsets
`(1, 1), (-3, 5), (12, 0)`; the conditions for a return hold and the result is 8 x 8. -/
theorem computeFractals_size_witness :
    (1 : Int) ≤ 2 ∧
    ((∀ out,
      computeFractals nearest (ramp 8 8) 1 (Offsets.padded [⟨1, 1⟩, ⟨-3, 5⟩, ⟨12, 0⟩]) 2
        = .ok out →
      out.cols = (ramp 8 8).cols ∧ out.rows = (ramp 8 8).rows ∧
      ∃ fill,
        fractalFill nearest (ramp 8 8) 1 (Offsets.padded [⟨1, 1⟩, ⟨-3, 5⟩, ⟨12, 0⟩]) 2
          = .ok fill ∧
        (fill.cols : Int) = ((ramp 8 8).cols : Int) / 2 ∧
        (fill.rows : Int) = ((ramp 8 8).rows : Int) / 2) ∧
     ∃ out,
      computeFractals nearest (ramp 8 8) 1 (Offsets.padded [⟨1, 1⟩, ⟨-3, 5⟩, ⟨12, 0⟩]) 2
        = .ok out) ∧
    (computeFractals nearest (ramp 8 8) 1
        (Offsets.padded [⟨1, 1⟩, ⟨-3, 5⟩, ⟨12, 0⟩]) 2).toOption.map
        (fun m => (m.cols, m.rows)) = some (8, 8) :=
  ⟨by decide,
    ⟨(computeFractals_size nearest (ramp 8 8) 1
        (Offsets.padded [⟨1, 1⟩, ⟨-3, 5⟩, ⟨12, 0⟩]) 2 (by decide)).1,
      (computeFractals_size nearest (ramp 8 8) 1
        (Offsets.padded [⟨1, 1⟩, ⟨-3, 5⟩, ⟨12, 0⟩]) 2 (by decide)).2
        (by decide) (by decide) (by decide) (by decide)⟩,
    by decide⟩

/-- Counterexample to C17 as stated: on a 3 x 3 image with one iteration, `r = 2` and the
sentinel-terminated offsets `(1, 1), (-1, -1), ...`, `computeFractals` returns no image
(so none of size 3 x 3): the second reduction, of the 1 x 1 image, asks for an image
without pixels and the call ends in the size assertion of `resize`.  On a 9 x 9 image with
the offsets `(8, 8), (-1, -1), ...` it returns no image either: at the second level the
point `(4, 4)` on the 4 x 4 image leaves a region without pixels and the paste ends in the
assertion of `copyTo`. -/
theorem computeFractals_size_fails_when_degenerate :
    computeFractals nearest (ramp 3 3) 1 (Offsets.padded [⟨1, 1⟩]) 2 = .error .cvAssert ∧
    (⟨-1, -1⟩ : Point) ∈ (Offsets.padded [⟨1, 1⟩]).slots ∧
    computeFractals nearest (ramp 9 9) 1 (Offsets.padded [⟨8, 8⟩]) 2 = .error .emptyCopy ∧
    (⟨-1, -1⟩ : Point) ∈ (Offsets.padded [⟨8, 8⟩]).slots :=
  ⟨rfl, by decide, rfl, by decide⟩

/-! ## The active points from level to level -/

/-- The truncating division by `r ≥ 1` gives `-1` exactly on the numbers `x` with
`-2 * r < x ≤ -r`. -/
theorem tdiv_eq_neg_one_iff (x r : Int) (hr : 1 ≤ r) :
    Int.tdiv x r = -1 ↔ -2 * r < x ∧ x ≤ -r := by
  by_cases hx : 0 ≤ x
  · have h0 : 0 ≤ Int.tdiv x r := Int.tdiv_nonneg hx (by omega)
    constructor
    · intro h
      omega
    · intro h
      omega
  · have hneg : Int.tdiv x r = -((-x) / r) := by
      rw [← Int.tdiv_eq_ediv (by omega) (by omega), Int.neg_tdiv, neg_neg]
    rw [hneg]
    have h1 : (-x) / r = 1 ↔ r ≤ -x ∧ -x < 2 * r := by
      constructor
      · intro h
        have ha : 1 ≤ (-x) / r := by omega
        have hb : (-x) / r < 2 := by omega
        exact ⟨by have := (Int.le_ediv_iff_mul_le (by omega : 0 < r)).mp ha; omega,
          by have := (Int.ediv_lt_iff_lt_mul (by omega : 0 < r)).mp hb; omega⟩
      · rintro ⟨ha, hb⟩
        have h2 : 1 ≤ (-x) / r := (Int.le_ediv_iff_mul_le (by omega : 0 < r)).mpr (by omega)
        have h3 : (-x) / r < 2 := (Int.ediv_lt_iff_lt_mul (by omega : 0 < r)).mpr (by omega)
        omega
    constructor
    · intro h
      have := h1.mp (by omega)
      omega
    · intro h
      have := h1.mpr (by omega)
      omega

/-- The instrumented loop records nothing when it is entered on a point with `x = -1` or
`y = -1`. -/
theorem pasteLoopT_stop (fractalImg : Mat α) (rest : List Point) (point : Point)
    (returnValue : Mat α) (h : ¬ (point.x ≠ -1 ∧ point.y ≠ -1)) :
    pasteLoopT fractalImg rest point returnValue = ([], .ok returnValue) := by
  cases rest with
  | nil => rw [pasteLoopT, if_neg h]
  | cons q rest => rw [pasteLoopT, if_neg h]


/-- The instrumented loop, entered on the first of `1 + act.length` points with `x ≠ -1`
and `y ≠ -1` that are followed by a point `stop` with `x = -1` or `y = -1`: when the fill
and the target have pixels and none of these points has the width of the target as `x` or
its height as `y`, the loop returns and records one paste for each of them. -/
theorem pasteLoopT_calls_active (fractalImg : Mat α) (act : List Point) (stop : Point)
    (rest : List Point) (point : Point) (returnValue : Mat α)
    (hf : 0 < fractalImg.cols ∧ 0 < fractalImg.rows)
    (hi : 0 < returnValue.cols ∧ 0 < returnValue.rows)
    (hp : point.x ≠ -1 ∧ point.y ≠ -1) (hact : ∀ p ∈ act, p.x ≠ -1 ∧ p.y ≠ -1)
    (hpts : ∀ p ∈ point :: act, p.x ≠ returnValue.cols ∧ p.y ≠ returnValue.rows)
    (hstop : ¬ (stop.x ≠ -1 ∧ stop.y ≠ -1)) :
    ∃ out, pasteLoopT fractalImg (act ++ stop :: rest) point returnValue =
      (List.replicate (act.length + 1) Call.copyImageToOffset, .ok out) := by
  induction act generalizing point returnValue with
  | nil =>
    have hpt := hpts point (List.mem_cons_self point _)
    obtain ⟨out, ho, _⟩ :=
      copyImageToOffset_returns point returnValue fractalImg hf hi hpt.1 hpt.2
    rw [List.nil_append, pasteLoopT, if_pos hp, ho]
    simp only
    rw [pasteLoopT_stop _ _ _ _ hstop]
    exact ⟨out, rfl⟩
  | cons a act ih =>
    have hpt := hpts point (List.mem_cons_self point _)
    obtain ⟨out, ho, hoc, hor⟩ :=
      copyImageToOffset_returns point returnValue fractalImg hf hi hpt.1 hpt.2
    have hpts2 : ∀ p ∈ a :: act, p.x ≠ out.cols ∧ p.y ≠ out.rows := by
      intro p hp2
      have := hpts p (List.mem_cons_of_mem point hp2)
      rw [hoc, hor]
      exact this
    obtain ⟨o2, ho2⟩ := ih a out (by omega) (hact a (List.mem_cons_self a act))
      (fun p hpm => hact p (List.mem_cons_of_mem a hpm)) hpts2
    rw [List.cons_append, pasteLoopT, if_pos hp, ho]
    simp only
    rw [ho2]
    exact ⟨o2, rfl⟩

/-- The step `pasteAllT` on an array that holds the points `act`, all with `x ≠ -1` and
`y ≠ -1`, and then a point `stop` with `x = -1` or `y = -1`: when the fill and the target
have pixels and no point of `act` has the width of the target as `x` or its height as
`y`, the step returns and records `act.length` pastes. -/
theorem pasteAllT_calls_active (fractalImg : Mat α) (offsetPoints : Offsets)
    (returnValue : Mat α) (act : List Point) (stop : Point) (rest : List Point)
    (hs : offsetPoints.slots = act ++ stop :: rest)
    (hf : 0 < fractalImg.cols ∧ 0 < fractalImg.rows)
    (hi : 0 < returnValue.cols ∧ 0 < returnValue.rows)
    (hact : ∀ p ∈ act, p.x ≠ -1 ∧ p.y ≠ -1)
    (hpts : ∀ p ∈ act, p.x ≠ returnValue.cols ∧ p.y ≠ returnValue.rows)
    (hstop : ¬ (stop.x ≠ -1 ∧ stop.y ≠ -1)) :
    ∃ out, pasteAllT fractalImg offsetPoints returnValue =
      (List.replicate act.length Call.copyImageToOffset, .ok out) := by
  unfold pasteAllT
  rw [hs]
  cases act with
  | nil =>
    simp only [List.nil_append]
    rw [pasteLoopT_stop _ _ _ _ hstop]
    exact ⟨returnValue, rfl⟩
  | cons a act =>
    simp only [List.cons_append]
    exact pasteLoopT_calls_active _ act stop rest a _ hf hi
      (hact a (List.mem_cons_self a act))
      (fun p hpm => hact p (List.mem_cons_of_mem a hpm)) hpts hstop

/-- C16 as amended: rescaling keeps the active points that do not rescale to `-1`.  For
every reduction factor `r ≥ 1` and every offsets array that holds the points `act`, all
with `x ≠ -1` and `y ≠ -1`, followed by `(-1, -1)`: when no coordinate `c` of a point of
`act` has `-2 * r < c ≤ -r` (the numbers that the truncating division by `r` takes to
`-1`), the array of the next level holds the rescaled points of `act`, again all with
`x ≠ -1` and `y ≠ -1`, followed by `(-1, -1)`, so the loops of both levels run over
`act.length` points.  At either level, when the fill and the target have pixels and no
point of the level has the width of the target as `x` or its height as `y` (so every paste
returns), the loop returns and makes exactly `act.length` pastes. -/
theorem childOffsets_keep_active (offsetPoints : Offsets) (r : Int) (hr : 1 ≤ r)
    (act rest : List Point) (hs : offsetPoints.slots = act ++ ⟨-1, -1⟩ :: rest)
    (hact : ∀ p ∈ act, (p.x ≠ -1 ∧ p.y ≠ -1) ∧
      ¬ (-2 * r < p.x ∧ p.x ≤ -r) ∧ ¬ (-2 * r < p.y ∧ p.y ≤ -r)) :
    (childOffsets offsetPoints r).slots =
      act.map (childOffset r) ++ ⟨-1, -1⟩ :: rest.map (childOffset r) ∧
    (∀ q ∈ act.map (childOffset r), q.x ≠ -1 ∧ q.y ≠ -1) ∧
    (act.map (childOffset r)).length = act.length ∧
    (∀ fill ret : Mat α, (0 < fill.cols ∧ 0 < fill.rows) → (0 < ret.cols ∧ 0 < ret.rows) →
      (∀ p ∈ act, p.x ≠ ret.cols ∧ p.y ≠ ret.rows) →
      ∃ out, pasteAllT fill offsetPoints ret =
        (List.replicate act.length Call.copyImageToOffset, .ok out)) ∧
    (∀ fill ret : Mat α, (0 < fill.cols ∧ 0 < fill.rows) → (0 < ret.cols ∧ 0 < ret.rows) →
      (∀ q ∈ act.map (childOffset r), q.x ≠ ret.cols ∧ q.y ≠ ret.rows) →
      ∃ out, pasteAllT fill (childOffsets offsetPoints r) ret =
        (List.replicate act.length Call.copyImageToOffset, .ok out)) := by
  have hslots : (childOffsets offsetPoints r).slots =
      act.map (childOffset r) ++ ⟨-1, -1⟩ :: rest.map (childOffset r) := by
    unfold childOffsets
    simp only [hs, List.map_append, List.map_cons]
    rfl
  have hchild : ∀ q ∈ act.map (childOffset r), q.x ≠ -1 ∧ q.y ≠ -1 := by
    intro q hq
    obtain ⟨p, hp, rfl⟩ := List.mem_map.mp hq
    obtain ⟨⟨hpx, hpy⟩, hx, hy⟩ := hact p hp
    unfold childOffset
    rw [if_neg (fun hc => hpx hc.1)]
    exact ⟨fun hc => hx ((tdiv_eq_neg_one_iff p.x r hr).mp hc),
      fun hc => hy ((tdiv_eq_neg_one_iff p.y r hr).mp hc)⟩
  refine ⟨hslots, hchild, List.length_map _ _, ?_, ?_⟩
  · intro fill ret hf hi hpts
    exact pasteAllT_calls_active fill offsetPoints ret act ⟨-1, -1⟩ rest hs hf hi
      (fun p hp => (hact p hp).1) hpts (by decide)
  · intro fill ret hf hi hpts
    have h := pasteAllT_calls_active fill (childOffsets offsetPoints r) ret
      (act.map (childOffset r)) ⟨-1, -1⟩ (rest.map (childOffset r)) hslots hf hi hchild hpts
      (by decide)
    rw [List.length_map] at h
    exact h

/-- Witness of C16 as amended: the offsets `(3, 3), (-5, 7)` and `r = 2`; the next level
has the points `(1, 1), (-2, 3)`, and both levels make two pastes: of a 4 x 4 fill onto an
8 x 8 image and of a 2 x 2 fill onto a 4 x 4 image. -/
theorem childOffsets_keep_active_witness :
    (1 : Int) ≤ 2 ∧
    (Offsets.padded [⟨3, 3⟩, ⟨-5, 7⟩]).slots =
      [⟨3, 3⟩, ⟨-5, 7⟩] ++ ⟨-1, -1⟩ :: List.replicate 7 sentinel ∧
    (∀ p ∈ [(⟨3, 3⟩ : Point), ⟨-5, 7⟩], (p.x ≠ -1 ∧ p.y ≠ -1) ∧
      ¬ (-2 * (2 : Int) < p.x ∧ p.x ≤ -2) ∧ ¬ (-2 * (2 : Int) < p.y ∧ p.y ≤ -2)) ∧
    ((childOffsets (Offsets.padded [⟨3, 3⟩, ⟨-5, 7⟩]) 2).slots =
        [(⟨3, 3⟩ : Point), ⟨-5, 7⟩].map (childOffset 2) ++
          ⟨-1, -1⟩ :: (List.replicate 7 sentinel).map (childOffset 2) ∧
      (∀ q ∈ [(⟨3, 3⟩ : Point), ⟨-5, 7⟩].map (childOffset 2), q.x ≠ -1 ∧ q.y ≠ -1) ∧
      ([(⟨3, 3⟩ : Point), ⟨-5, 7⟩].map (childOffset 2)).length =
        [(⟨3, 3⟩ : Point), ⟨-5, 7⟩].length) ∧
    (∃ out, pasteAllT (plain 4 4 9) (Offsets.padded [⟨3, 3⟩, ⟨-5, 7⟩]) (ramp 8 8) =
      (List.replicate [(⟨3, 3⟩ : Point), ⟨-5, 7⟩].length Call.copyImageToOffset, .ok out)) ∧
    (∃ out, pasteAllT (plain 2 2 9) (childOffsets (Offsets.padded [⟨3, 3⟩, ⟨-5, 7⟩]) 2)
        (ramp 4 4) =
      (List.replicate [(⟨3, 3⟩ : Point), ⟨-5, 7⟩].length Call.copyImageToOffset, .ok out)) ∧
    ((childOffsets (Offsets.padded [⟨3, 3⟩, ⟨-5, 7⟩]) 2).slots.take 3 =
      [⟨1, 1⟩, ⟨-2, 3⟩, ⟨-1, -1⟩]) :=
  have h := childOffsets_keep_active (Offsets.padded [⟨3, 3⟩, ⟨-5, 7⟩]) 2 (by decide)
      [⟨3, 3⟩, ⟨-5, 7⟩] (List.replicate 7 sentinel) rfl (by decide)
  ⟨by decide, rfl, by decide, ⟨h.1, h.2.1, h.2.2.1⟩,
    h.2.2.2.1 (plain 4 4 9) (ramp 8 8) (by decide) (by decide) (by decide),
    h.2.2.2.2 (plain 2 2 9) (ramp 4 4) (by decide) (by decide) (by decide),
    by decide⟩

/-- Counterexample to C16 as stated: with `r = 2` and the offsets `(-2, -2), (3, 3)`, both
active at the top level, the array of the next level starts with `(-1, -1)`: the point
`(-2, -2)` rescales to the sentinel.  The top level makes two pastes and the next level
none. -/
theorem childOffsets_active_point_becomes_sentinel :
    (Offsets.padded [⟨-2, -2⟩, ⟨3, 3⟩]).slots.take 3 = [⟨-2, -2⟩, ⟨3, 3⟩, ⟨-1, -1⟩] ∧
    (childOffsets (Offsets.padded [⟨-2, -2⟩, ⟨3, 3⟩]) 2).slots.take 3 =
      [⟨-1, -1⟩, ⟨1, 1⟩, ⟨-1, -1⟩] ∧
    (pasteAllT (plain 4 4 9) (Offsets.padded [⟨-2, -2⟩, ⟨3, 3⟩]) (ramp 8 8)).1 =
      [Call.copyImageToOffset, Call.copyImageToOffset] ∧
    (pasteAllT (plain 2 2 9) (childOffsets (Offsets.padded [⟨-2, -2⟩, ⟨3, 3⟩]) 2)
        (ramp 4 4)).1 = [] ∧
    (computeFractalsT nearest (ramp 8 8) 1 (Offsets.padded [⟨-2, -2⟩, ⟨3, 3⟩]) 2).1 =
      [Call.reduceImage, Call.reduceImage, Call.copyImageToOffset,
       Call.copyImageToOffset] :=
  ⟨by decide, by decide, by decide, by decide, by decide⟩


end FractalImages
